import Mathlib

/-!
Shallow embedding of the LiftLogger workout-session reconciliation logic
(`src/app/workout/[id]/page.tsx`), the routine-save payload construction
(routines page, `handleSave`) and the history-detail volume computation.

Numbers entered or stored as JS `number` are modelled as `ℚ` (weights, reps,
rpe) or `ℤ` (set numbers); counts and indices are `ℕ`.
-/

/-- `SetData` from the workout page: one row of an exercise's set list. -/
structure SetData where
  id : Option String
  set_number : Int
  weight : ℚ
  reps : ℚ
  rpe : Option ℚ
  logged : Bool
deriving Repr, DecidableEq

/-- `ExerciseData` from the workout page: one exercise card of the view. -/
structure ExerciseData where
  exercise_id : String
  exercise_name : String
  sets : List SetData
  previousBest : Option (ℚ × ℚ)
  expanded : Bool
deriving Repr, DecidableEq

/-- `RoutineExercise` as returned by the API (`lib/api.ts`). -/
structure RoutineExercise where
  id : String
  exercise_id : String
  exercise_name : String
  order : Int
  target_sets : Nat
  target_reps_min : Int
  target_reps_max : Int
deriving Repr, DecidableEq

/-- `Routine` as returned by the API (`lib/api.ts`). -/
structure Routine where
  id : String
  name : String
  schedule_day_index : Int
  exercises : List RoutineExercise
deriving Repr, DecidableEq

/-- One element of `workout_sets` in the `getWorkout` response: a persisted
LoggedSet row, with the joined exercise name (`set.exercises?.name`). -/
structure WorkoutSet where
  id : String
  exercise_id : String
  set_number : Int
  weight : ℚ
  reps : ℚ
  rpe : Option ℚ
  exercise_name : Option String
deriving Repr, DecidableEq

/-- `Exercise` from the catalog (`lib/api.ts`). -/
structure Exercise where
  id : String
  name : String
  muscle_group : String
  category : String
deriving Repr, DecidableEq

/-- `exerciseMap.set(key, value)` on the JS `Map` keyed by `exercise_id`:
replaces the value in place when the key is present (a JS `Map` keeps the
original insertion position and can never hold a duplicate key), otherwise
appends at the end. -/
def mapSet (m : List ExerciseData) (e : ExerciseData) : List ExerciseData :=
  if m.any (fun x => x.exercise_id = e.exercise_id) then
    m.map (fun x => if x.exercise_id = e.exercise_id then e else x)
  else m ++ [e]

/-- Seeding one routine exercise (workout page, `loadWorkout` lines 92–102):
`target_sets` placeholder sets numbered `1..target_sets`, weight 0, reps 0,
unlogged, collapsed. -/
def seedExercise (ex : RoutineExercise) : ExerciseData :=
  { exercise_id := ex.exercise_id
    exercise_name := ex.exercise_name
    sets := (List.range ex.target_sets).map (fun (i : Nat) =>
      { id := none, set_number := (i : Int) + 1, weight := 0, reps := 0,
        rpe := none, logged := false })
    previousBest := none
    expanded := false }

/-- The seeding phase of `loadWorkout` (lines 84–105): if the workout has a
truthy `routine_name`, look the routine up by name in `listRoutines()` and
seed the map from its exercise list; otherwise start empty. -/
def seedPhase (routineName : Option String) (routines : List Routine) :
    List ExerciseData :=
  match routineName with
  | none => []
  | some n =>
    if n = "" then []
    else
      match routines.find? (fun r => r.name = n) with
      | none => []
      | some r => r.exercises.foldl (fun m ex => mapSet m (seedExercise ex)) []

/-- The `SetData` built from a persisted `WorkoutSet` during overlay
(lines 125–141): real weight/reps/rpe/id, marked logged. -/
def loggedSetData (s : WorkoutSet) : SetData :=
  { id := some s.id, set_number := s.set_number, weight := s.weight,
    reps := s.reps, rpe := s.rpe, logged := true }

/-- Overlay of one persisted set into one exercise entry (lines 122–142):
`findIndex` on `set_number`; replace in place when found, else push. -/
def overlayIntoExercise (ex : ExerciseData) (s : WorkoutSet) : ExerciseData :=
  match ex.sets.findIdx? (fun t => t.set_number = s.set_number) with
  | some i => { ex with sets := ex.sets.set i (loggedSetData s) }
  | none => { ex with sets := ex.sets ++ [loggedSetData s] }

/-- The fresh entry created when a persisted set's exercise is not yet in the
map (lines 112–120). -/
def freshExercise (s : WorkoutSet) : ExerciseData :=
  { exercise_id := s.exercise_id
    exercise_name :=
      match s.exercise_name with
      | some n => if n = "" then "Unknown" else n
      | none => "Unknown"
    sets := []
    previousBest := none
    expanded := false }

/-- One iteration of the `for (const set of data.workout_sets)` loop
(lines 108–143): get-or-create the exercise entry, then update/add the set. -/
def overlaySet (m : List ExerciseData) (s : WorkoutSet) : List ExerciseData :=
  if m.any (fun ex => ex.exercise_id = s.exercise_id) then
    m.map (fun ex =>
      if ex.exercise_id = s.exercise_id then overlayIntoExercise ex s else ex)
  else m ++ [overlayIntoExercise (freshExercise s) s]

/-- The fused sort-and-expand loop of `loadWorkout` (lines 146–154): walk the
exercises in order; each visited exercise has its sets sorted in place by
`ex.sets.sort((a, b) => a.set_number - b.set_number)` (ascending, stable),
then the first exercise whose sets are not all logged is marked expanded and
the `break` leaves every later exercise untouched (in particular unsorted). -/
def sortAndExpand : List ExerciseData → List ExerciseData
  | [] => []
  | ex :: rest =>
    let sorted := { ex with
      sets := ex.sets.mergeSort (fun a b => a.set_number ≤ b.set_number) }
    if sorted.sets.all (fun s => s.logged) then sorted :: sortAndExpand rest
    else { sorted with expanded := true } :: rest

/-- The full reconciliation-view build of `loadWorkout` (before the
previous-best pass): seed from the routine, overlay the persisted sets, then
run the fused sort-and-expand loop. -/
def buildView (routineName : Option String) (routines : List Routine)
    (workout_sets : List WorkoutSet) : List ExerciseData :=
  sortAndExpand (workout_sets.foldl overlaySet
    (seedPhase routineName routines))

/-- One entry of the `getExerciseHistory` response. -/
structure HistoryEntry where
  weight : ℚ
  reps : ℚ
deriving Repr, DecidableEq

/-- `history.reduce((max, s) => s.weight > max.weight ? s : max, history[0])`
guarded by `history.length > 0` (lines 162–165): the first entry of maximum
weight, or `none` for an empty history. -/
def bestOf (l : List HistoryEntry) : Option HistoryEntry :=
  match l with
  | [] => none
  | h :: _ => some (l.foldl (fun mx s => if mx.weight < s.weight then s else mx) h)

/-- The per-exercise body of the previous-best loop (lines 159–171): fetch the
exercise's history; on success with a non-empty list set `previousBest` from
the best entry; on failure or an empty list leave the entry untouched. -/
def hintOne (fetch : String → Except String (List HistoryEntry))
    (ex : ExerciseData) : ExerciseData :=
  match fetch ex.exercise_id with
  | .ok hist =>
    match bestOf hist with
    | some b => { ex with previousBest := some (b.weight, b.reps) }
    | none => ex
  | .error _ => ex

/-- The previous-best pass of `loadWorkout` (lines 158–172): each exercise is
processed independently, errors are swallowed per exercise. -/
def applyHints (fetch : String → Except String (List HistoryEntry))
    (view : List ExerciseData) : List ExerciseData :=
  view.map (hintOne fetch)

/-- `setExercises(exercises.map(ex => ex.exercise_id === id ? f(ex) : ex))`,
the update shape shared by `updateSet`, `handleLogSet` and
`addSetToExercise`. -/
def updateExercise (view : List ExerciseData) (eid : String)
    (f : ExerciseData → ExerciseData) : List ExerciseData :=
  view.map (fun ex => if ex.exercise_id = eid then f ex else ex)

/-- `addSetToExercise` (lines 225–239): append one set numbered
`Math.max(0, ...set_numbers) + 1`, pre-filled from the last set (`|| 0`),
unlogged. -/
def addSetToExercise (view : List ExerciseData) (eid : String) :
    List ExerciseData :=
  updateExercise view eid (fun ex =>
    let nextSetNumber := (ex.sets.foldl (fun m s => max m s.set_number) 0) + 1
    { ex with sets := ex.sets ++ [{
        id := none
        set_number := nextSetNumber
        weight := ((ex.sets.getLast?).map (fun s => s.weight)).getD 0
        reps := ((ex.sets.getLast?).map (fun s => s.reps)).getD 0
        rpe := none
        logged := false }] })

/-- The two editable fields of `updateSet`. -/
inductive SetField
  | weight
  | reps
deriving Repr, DecidableEq

/-- `updateSet` (lines 188–198): write one field of the set with the given
`set_number` inside the given exercise. -/
def updateSet (view : List ExerciseData) (eid : String) (setNumber : Int)
    (field : SetField) (value : ℚ) : List ExerciseData :=
  updateExercise view eid (fun ex =>
    { ex with sets := ex.sets.map (fun s =>
        if s.set_number = setNumber then
          match field with
          | .weight => { s with weight := value }
          | .reps => { s with reps := value }
        else s) })

/-- The body sent by `logSet` (`lib/api.ts` `SetLog`, without rpe, as built at
lines 204–209). -/
structure SetLogPayload where
  exercise_id : String
  set_number : Int
  weight : ℚ
  reps : ℚ
deriving Repr, DecidableEq

/-- `handleLogSet` (lines 200–223): guard `weight <= 0 || reps <= 0` returns
without sending; otherwise the payload is sent and the matching set is marked
logged. Returns (payload sent, new view state). -/
def handleLogSet (view : List ExerciseData) (eid : String) (s : SetData) :
    Option SetLogPayload × List ExerciseData :=
  if s.weight ≤ 0 ∨ s.reps ≤ 0 then (none, view)
  else
    (some { exercise_id := eid, set_number := s.set_number,
            weight := s.weight, reps := s.reps },
     updateExercise view eid (fun ex =>
       { ex with sets := ex.sets.map (fun t =>
           if t.set_number = s.set_number then { t with logged := true }
           else t) }))

/-- The result filter of `handleSearch` (lines 249–252): drop catalog hits
whose id is already one of the view's exercises. -/
def filterSearchResults (results : List Exercise)
    (view : List ExerciseData) : List Exercise :=
  results.filter (fun r => ¬ view.any (fun e => e.exercise_id = r.id))

/-- `addExercise` on the workout page (lines 260–270): append a new exercise
with one unlogged placeholder set numbered 1, expanded. -/
def addExercise (view : List ExerciseData) (e : Exercise) :
    List ExerciseData :=
  view ++ [{ exercise_id := e.id
             exercise_name := e.name
             sets := [{ id := none, set_number := 1, weight := 0, reps := 0,
                        rpe := none, logged := false }]
             previousBest := none
             expanded := true }]

/-- `totalVolume` on the live workout page (lines 288–294): sum of
weight×reps over the view's logged sets. -/
def totalVolume (view : List ExerciseData) : ℚ :=
  view.foldl (fun sum ex =>
    sum + (ex.sets.filter (fun s => s.logged)).foldl
      (fun setSum s => setSum + s.weight * s.reps) 0) 0

/-- `totalVolume` on the workout-detail page (history detail, lines 84–87):
sum of weight×reps over all persisted sets of the session. -/
def detailTotalVolume (sets : List WorkoutSet) : ℚ :=
  sets.foldl (fun sum s => sum + s.weight * s.reps) 0

/-- One exercise row of the routine-editor form state
(`RoutineExerciseForm`). -/
structure RoutineExerciseForm where
  exercise_id : String
  exercise_name : String
  order : Int
  target_sets : Int
  target_reps_min : Int
  target_reps_max : Int
deriving Repr, DecidableEq

/-- One exercise row of the `RoutineInput` payload (`lib/api.ts`). -/
structure RoutineExerciseInput where
  exercise_id : String
  order : Int
  target_sets : Int
  target_reps_min : Int
  target_reps_max : Int
deriving Repr, DecidableEq

/-- The `RoutineInput` payload (`lib/api.ts`). -/
structure RoutineInput where
  name : String
  schedule_day_index : Int
  exercises : List RoutineExerciseInput
deriving Repr, DecidableEq

/-- JS `String.prototype.trim`: strip leading and trailing whitespace. -/
def jsTrim (s : String) : String :=
  ⟨((s.data.dropWhile Char.isWhitespace).reverse.dropWhile
      Char.isWhitespace).reverse⟩

/-- `handleSave` of the routines page (lines 140–169), up to the network
call: the guard `!formName.trim()` aborts, otherwise the payload carries the
full exercise list with `order` renumbered to the array position. The same
payload is used for both create and update (update is a full replace via
PUT). -/
def buildRoutineInput (name : String) (day : Int)
    (formExercises : List RoutineExerciseForm) : Option RoutineInput :=
  if jsTrim name = "" then none
  else some
    { name := name
      schedule_day_index := day
      exercises := formExercises.enum.map (fun p =>
        { exercise_id := p.2.exercise_id
          order := (p.1 : Int)
          target_sets := p.2.target_sets
          target_reps_min := p.2.target_reps_min
          target_reps_max := p.2.target_reps_max }) }

/-- Completion count of one exercise card as displayed (line 347):
logged count over total count. -/
def completionCount (ex : ExerciseData) : Nat × Nat :=
  ((ex.sets.filter (fun s => s.logged)).length, ex.sets.length)

/-- All sets of an exercise are logged. -/
def allLogged (ex : ExerciseData) : Bool :=
  ex.sets.all (fun s => s.logged)

/-! ## Helper lemmas -/

theorem mapSet_mem {m : List ExerciseData} {e x : ExerciseData}
    (hx : x ∈ mapSet m e) : x ∈ m ∨ x = e := by
  unfold mapSet at hx
  split at hx
  · rcases List.mem_map.1 hx with ⟨y, hy, hxy⟩
    by_cases h : y.exercise_id = e.exercise_id
    · simp only [h, if_pos] at hxy
      exact Or.inr hxy.symm
    · simp only [h, if_neg, not_false_iff] at hxy
      exact Or.inl (hxy ▸ hy)
  · rcases List.mem_append.1 hx with h | h
    · exact Or.inl h
    · exact Or.inr (List.mem_singleton.1 h)

theorem seedPhase_mem {rn : Option String} {rs : List Routine}
    {x : ExerciseData} (hx : x ∈ seedPhase rn rs) :
    ∃ ex : RoutineExercise, x = seedExercise ex := by
  unfold seedPhase at hx
  rcases rn with _ | n
  · simp at hx
  · dsimp at hx
    split at hx
    · simp at hx
    · split at hx
      · simp at hx
      · rename_i r _
        suffices h : ∀ (l : List RoutineExercise) (acc : List ExerciseData),
            (∀ y ∈ acc, ∃ ex, y = seedExercise ex) →
            ∀ y ∈ l.foldl (fun m ex => mapSet m (seedExercise ex)) acc,
              ∃ ex, y = seedExercise ex by
          exact h r.exercises [] (by simp) x hx
        intro l
        induction l with
        | nil => intro acc hacc y hy; exact hacc y hy
        | cons hd tl ih =>
          intro acc hacc y hy
          refine ih (mapSet acc (seedExercise hd)) ?_ y hy
          intro z hz
          rcases mapSet_mem hz with h | h
          · exact hacc z h
          · exact ⟨hd, h⟩

theorem overlayIntoExercise_expanded (ex : ExerciseData) (s : WorkoutSet) :
    (overlayIntoExercise ex s).expanded = ex.expanded := by
  unfold overlayIntoExercise
  split <;> rfl

theorem overlayIntoExercise_exercise_id (ex : ExerciseData) (s : WorkoutSet) :
    (overlayIntoExercise ex s).exercise_id = ex.exercise_id := by
  unfold overlayIntoExercise
  split <;> rfl

theorem overlaySet_mem {m : List ExerciseData} {s : WorkoutSet}
    {x : ExerciseData} (hx : x ∈ overlaySet m s) :
    (∃ y ∈ m, x = overlayIntoExercise y s ∨ x = y) ∨
      x = overlayIntoExercise (freshExercise s) s := by
  unfold overlaySet at hx
  split at hx
  · rcases List.mem_map.1 hx with ⟨y, hy, hxy⟩
    by_cases h : y.exercise_id = s.exercise_id
    · simp only [h, if_pos] at hxy
      exact Or.inl ⟨y, hy, Or.inl hxy.symm⟩
    · simp only [h, if_neg, not_false_iff] at hxy
      exact Or.inl ⟨y, hy, Or.inr hxy.symm⟩
  · rcases List.mem_append.1 hx with h | h
    · exact Or.inl ⟨x, h, Or.inr rfl⟩
    · exact Or.inr (List.mem_singleton.1 h)

theorem overlayFold_expanded (ws : List WorkoutSet) :
    ∀ (m : List ExerciseData), (∀ x ∈ m, x.expanded = false) →
      ∀ x ∈ ws.foldl overlaySet m, x.expanded = false := by
  induction ws with
  | nil => intro m hm x hx; exact hm x hx
  | cons s rest ih =>
    intro m hm x hx
    refine ih (overlaySet m s) ?_ x hx
    intro z hz
    rcases overlaySet_mem hz with ⟨y, hy, hz1 | hz2⟩ | hz3
    · rw [hz1, overlayIntoExercise_expanded]; exact hm y hy
    · rw [hz2]; exact hm y hy
    · rw [hz3, overlayIntoExercise_expanded]; rfl

theorem seedExercise_expanded (ex : RoutineExercise) :
    (seedExercise ex).expanded = false := rfl

/-- Every entry of the view, just before the sort-and-expand loop runs, is
collapsed. -/
theorem preExpanded_false (rn : Option String) (rs : List Routine)
    (ws : List WorkoutSet) :
    ∀ x ∈ ws.foldl overlaySet (seedPhase rn rs), x.expanded = false := by
  intro x hx
  refine overlayFold_expanded ws (seedPhase rn rs) ?_ x hx
  intro z hz
  rcases seedPhase_mem hz with ⟨ex, hex⟩
  rw [hex]
  rfl

/-- Characterization of the expansion flags produced by the fused loop on a
view where every entry starts out collapsed: an entry ends up expanded
exactly when it is the first incomplete one. -/
theorem sortAndExpand_spec (l : List ExerciseData)
    (hl : ∀ x ∈ l, x.expanded = false) :
    ∀ (i : ℕ) (ex : ExerciseData), (sortAndExpand l).get? i = some ex →
      (ex.expanded = true ↔
        (allLogged ex = false ∧
          ∀ j y, j < i → (sortAndExpand l).get? j = some y →
            allLogged y = true)) := by
  induction l with
  | nil => intro i ex hx; simp [sortAndExpand] at hx
  | cons ex0 rest ih =>
    by_cases hall : ((ex0.sets.mergeSort
        (fun a b => a.set_number ≤ b.set_number)).all fun s => s.logged) = true
    · have hme : sortAndExpand (ex0 :: rest) =
          { ex0 with sets := ex0.sets.mergeSort (fun a b => a.set_number ≤ b.set_number) } ::
            sortAndExpand rest := by
        simp [sortAndExpand, hall]
      rw [hme]
      intro i x hx
      cases i with
      | zero =>
        simp only [List.get?_cons_zero, Option.some_inj] at hx
        subst hx
        constructor
        · intro hexp
          have h0 : ex0.expanded = true := by simpa using hexp
          rw [hl ex0 (List.mem_cons_self _ _)] at h0
          exact absurd h0 (by simp)
        · rintro ⟨hfalse, -⟩
          have h0 : ((ex0.sets.mergeSort
              (fun a b => a.set_number ≤ b.set_number)).all
                fun s => s.logged) = false := by
            simpa [allLogged] using hfalse
          rw [hall] at h0
          exact absurd h0 (by simp)
      | succ k =>
        simp only [List.get?_cons_succ] at hx
        have hrest : ∀ x ∈ rest, x.expanded = false := fun x hx2 =>
          hl x (List.mem_cons_of_mem _ hx2)
        rw [ih hrest k x hx]
        constructor
        · rintro ⟨h1, h2⟩
          refine ⟨h1, ?_⟩
          intro j y hj hy
          cases j with
          | zero =>
            simp only [List.get?_cons_zero, Option.some_inj] at hy
            subst hy
            simpa [allLogged] using hall
          | succ j2 =>
            simp only [List.get?_cons_succ] at hy
            exact h2 j2 y (by omega) hy
        · rintro ⟨h1, h2⟩
          refine ⟨h1, ?_⟩
          intro j y hj hy
          exact h2 (j + 1) y (by omega) (by simpa using hy)
    · have hme : sortAndExpand (ex0 :: rest) =
          { ex0 with sets := ex0.sets.mergeSort (fun a b => a.set_number ≤ b.set_number), expanded := true } ::
            rest := by
        simp [sortAndExpand, hall]
      rw [hme]
      intro i x hx
      cases i with
      | zero =>
        simp only [List.get?_cons_zero, Option.some_inj] at hx
        subst hx
        constructor
        · intro _
          refine ⟨by simpa [allLogged] using hall, ?_⟩
          intro j y hj hy
          omega
        · intro _
          rfl
      | succ k =>
        simp only [List.get?_cons_succ] at hx
        have hxr : x ∈ rest := List.get?_mem hx
        constructor
        · intro hexp
          rw [hl x (List.mem_cons_of_mem _ hxr)] at hexp
          exact absurd hexp (by simp)
        · rintro ⟨-, h2⟩
          exfalso
          have h0 := h2 0 { ex0 with sets := ex0.sets.mergeSort (fun a b => a.set_number ≤ b.set_number), expanded := true }
            (by omega) (by simp)
          have h1 : ((ex0.sets.mergeSort
              (fun a b => a.set_number ≤ b.set_number)).all
                fun s => s.logged) = true := by
            simpa [allLogged] using h0
          exact hall h1


/-! ## Concrete scenario: routine with exercises A (3 targets, 0 logged)
and B (2 targets, 2 logged) -/

def rA : RoutineExercise := ⟨"reA", "exA", "Bench", 0, 3, 8, 12⟩

def rB : RoutineExercise := ⟨"reB", "exB", "Row", 1, 2, 8, 12⟩

def rt : Routine := ⟨"r1", "Push", 1, [rA, rB]⟩

def wsB1 : WorkoutSet := ⟨"s1", "exB", 1, 100, 10, none, some "Row"⟩

def wsB2 : WorkoutSet := ⟨"s2", "exB", 2, 80, 12, none, some "Row"⟩

def demoView : List ExerciseData := buildView (some "Push") [rt] [wsB1, wsB2]

def demoA : ExerciseData :=
  ⟨"exA", "Bench", [⟨none, 1, 0, 0, none, false⟩, ⟨none, 2, 0, 0, none, false⟩,
    ⟨none, 3, 0, 0, none, false⟩], none, true⟩

def demoB : ExerciseData :=
  ⟨"exB", "Row", [⟨some "s1", 1, 100, 10, none, true⟩,
    ⟨some "s2", 2, 80, 12, none, true⟩], none, false⟩

theorem demoView_eq : demoView = [demoA, demoB] := by
  simp [demoView, buildView, seedPhase, mapSet, seedExercise, overlaySet,
    overlayIntoExercise, freshExercise, loggedSetData, sortAndExpand,
    List.mergeSort, allLogged, rt, rA, rB, wsB1, wsB2, demoA, demoB,
    List.range, List.range.loop, List.findIdx?]

/-! ## Claims -/

/-- C1: In every reconciliation view built when a session is opened, an
exercise is auto-expanded exactly when it is the first exercise (in mapping
order) whose set list is not 100% logged; in particular, if every exercise is
fully logged no exercise is auto-expanded. -/
theorem claim_C1_first_incomplete_expanded (rn : Option String)
    (rs : List Routine) (ws : List WorkoutSet) (i : ℕ) (ex : ExerciseData)
    (hx : (buildView rn rs ws).get? i = some ex) :
    ex.expanded = true ↔
      (allLogged ex = false ∧
        ∀ j y, j < i → (buildView rn rs ws).get? j = some y →
          allLogged y = true) := by
  unfold buildView at hx ⊢
  exact sortAndExpand_spec _ (preExpanded_false rn rs ws) i ex hx

/-- C1 witness: for the routine with A (3 target sets, 0 logged) and
B (2 target sets, 2 logged), A is expanded with completion count 0/3, B is
collapsed with completion count 2/2, and the theorem applies at index 0. -/
theorem claim_C1_witness :
    demoView.get? 0 = some demoA ∧
    (demoA.expanded = true ↔
      (allLogged demoA = false ∧
        ∀ j y, j < 0 → demoView.get? j = some y → allLogged y = true)) ∧
    demoA.expanded = true ∧ completionCount demoA = (0, 3) ∧
    demoView.get? 1 = some demoB ∧ demoB.expanded = false ∧
    completionCount demoB = (2, 2) :=
  ⟨by rw [demoView_eq]; rfl,
   claim_C1_first_incomplete_expanded (some "Push") [rt] [wsB1, wsB2] 0 demoA
     (by rw [show buildView (some "Push") [rt] [wsB1, wsB2] = demoView from rfl,
             demoView_eq]; rfl),
   by decide, by decide, by rw [demoView_eq]; rfl, by decide, by decide⟩

/-- C6: a failing history fetch leaves exactly its own exercise without a
hint; every other exercise's outcome depends only on its own fetch, and the
hint pass never shortens or aborts the view. -/
theorem claim_C6_history_failure_isolated
    (f g : String → Except String (List HistoryEntry))
    (view : List ExerciseData) (i j : ℕ) (ex exj : ExerciseData) (e : String)
    (hi : view.get? i = some ex) (hfail : f ex.exercise_id = .error e)
    (hj : view.get? j = some exj)
    (hagree : f exj.exercise_id = g exj.exercise_id) :
    (applyHints f view).length = view.length ∧
    (applyHints f view).get? i = some ex ∧
    (applyHints f view).get? j = (applyHints g view).get? j := by
  refine ⟨List.length_map _ _, ?_, ?_⟩
  · rw [applyHints, List.get?_map, hi]
    simp [hintOne, hfail]
  · rw [applyHints, applyHints, List.get?_map, List.get?_map, hj]
    simp [hintOne, hagree]

def histDemo : List HistoryEntry := [⟨100, 10⟩, ⟨120, 5⟩, ⟨120, 8⟩, ⟨90, 1⟩]

def fetchFailA : String → Except String (List HistoryEntry) :=
  fun s => if s = "exA" then .error "network" else .ok histDemo

def fetchOkAll : String → Except String (List HistoryEntry) :=
  fun _ => .ok histDemo

/-- C6 witness: with a fetch that fails for exercise A only, A keeps no hint
and B's entry is the same as under a fully succeeding fetch. -/
theorem claim_C6_witness :
    (applyHints fetchFailA [demoA, demoB]).length = 2 ∧
    (applyHints fetchFailA [demoA, demoB]).get? 0 = some demoA ∧
    (applyHints fetchFailA [demoA, demoB]).get? 1 =
      (applyHints fetchOkAll [demoA, demoB]).get? 1 :=
  claim_C6_history_failure_isolated fetchFailA fetchOkAll [demoA, demoB] 0 1
    demoA demoB "network" (by decide) (by simp [fetchFailA, demoA])
    (by decide) (by simp [fetchFailA, fetchOkAll, demoB])

/-- Specification of the `reduce` step of the previous-best computation: the
fold keeps the accumulator unless a strictly heavier entry appears, so it
returns the first entry of maximal weight among accumulator and list. -/
theorem bestOf_fold_spec (t : List HistoryEntry) :
    ∀ a : HistoryEntry,
      (t.foldl (fun mx s => if mx.weight < s.weight then s else mx) a = a ∧
        ∀ x ∈ t, x.weight ≤ a.weight) ∨
      (∃ i b, t.get? i = some b ∧
        t.foldl (fun mx s => if mx.weight < s.weight then s else mx) a = b ∧
        a.weight < b.weight ∧ (∀ x ∈ t, x.weight ≤ b.weight) ∧
        ∀ j y, j < i → t.get? j = some y → y.weight < b.weight) := by
  induction t with
  | nil =>
    intro a
    exact Or.inl ⟨rfl, by simp⟩
  | cons x t ih =>
    intro a
    by_cases hx : a.weight < x.weight
    · have hstep : (x :: t).foldl
          (fun mx s => if mx.weight < s.weight then s else mx) a =
          t.foldl (fun mx s => if mx.weight < s.weight then s else mx) x := by
        simp [hx]
      rcases ih x with ⟨heq, hb⟩ | ⟨i, b, hget, heq, hlt, hall, hpre⟩
      · refine Or.inr ⟨0, x, by simp, ?_, hx, ?_, ?_⟩
        · rw [hstep, heq]
        · intro y hy
          rcases List.mem_cons.1 hy with h | h
          · exact le_of_eq (by rw [h])
          · exact hb y h
        · intro j y hj hy; omega
      · refine Or.inr ⟨i + 1, b, by simpa using hget, ?_, hx.trans hlt, ?_, ?_⟩
        · rw [hstep, heq]
        · intro y hy
          rcases List.mem_cons.1 hy with h | h
          · rw [h]; exact le_of_lt hlt
          · exact hall y h
        · intro j y hj hy
          cases j with
          | zero =>
            simp only [List.get?_cons_zero, Option.some_inj] at hy
            rw [← hy]; exact hlt
          | succ j' =>
            simp only [List.get?_cons_succ] at hy
            exact hpre j' y (by omega) hy
    · have hstep : (x :: t).foldl
          (fun mx s => if mx.weight < s.weight then s else mx) a =
          t.foldl (fun mx s => if mx.weight < s.weight then s else mx) a := by
        simp [hx]
      rcases ih a with ⟨heq, hb⟩ | ⟨i, b, hget, heq, hlt, hall, hpre⟩
      · refine Or.inl ⟨by rw [hstep, heq], ?_⟩
        intro y hy
        rcases List.mem_cons.1 hy with h | h
        · rw [h]; exact le_of_not_lt hx
        · exact hb y h
      · refine Or.inr ⟨i + 1, b, by simpa using hget, ?_, hlt, ?_, ?_⟩
        · rw [hstep, heq]
        · intro y hy
          rcases List.mem_cons.1 hy with h | h
          · rw [h]; exact (le_of_not_lt hx).trans (le_of_lt hlt)
          · exact hall y h
        · intro j y hj hy
          cases j with
          | zero =>
            simp only [List.get?_cons_zero, Option.some_inj] at hy
            rw [← hy]; exact lt_of_le_of_lt (le_of_not_lt hx) hlt
          | succ j' =>
            simp only [List.get?_cons_succ] at hy
            exact hpre j' y (by omega) hy

/-- C5: the previous-best hint is the history entry of maximum weight,
keeping the first encountered on ties; an empty history yields no hint, and
the hint pass writes exactly that choice into the exercise's entry. -/
theorem claim_C5_previous_best (l : List HistoryEntry)
    (fetch : String → Except String (List HistoryEntry))
    (view : List ExerciseData) (i : ℕ) (ex : ExerciseData)
    (hist : List HistoryEntry) :
    (bestOf l = none ↔ l = []) ∧
    (∀ b, bestOf l = some b →
      (∃ k, l.get? k = some b ∧ (∀ x ∈ l, x.weight ≤ b.weight) ∧
        ∀ j y, j < k → l.get? j = some y → y.weight < b.weight)) ∧
    (view.get? i = some ex → fetch ex.exercise_id = .ok hist →
      ∀ y, (applyHints fetch view).get? i = some y →
        y.previousBest =
          match bestOf hist with
          | some b => some (b.weight, b.reps)
          | none => ex.previousBest) := by
  refine ⟨?_, ?_, ?_⟩
  · cases l with
    | nil => simp [bestOf]
    | cons h t => simp [bestOf]
  · intro b hb
    cases l with
    | nil => simp [bestOf] at hb
    | cons h t =>
      have hfold : bestOf (h :: t) =
          some (t.foldl (fun mx s => if mx.weight < s.weight then s else mx) h) := by
        show some ((h :: t).foldl (fun mx s => if mx.weight < s.weight then s else mx) h) = _
        rw [List.foldl_cons]
        simp
      rw [hfold, Option.some_inj] at hb
      rcases bestOf_fold_spec t h with ⟨heq, hball⟩ | ⟨k, b', hget, heq, hlt, hall, hpre⟩
      · refine ⟨0, ?_, ?_, ?_⟩
        · rw [← hb, heq]; rfl
        · intro x hx
          rcases List.mem_cons.1 hx with h1 | h1
          · rw [h1, ← hb, heq]
          · rw [← hb, heq]; exact hball x h1
        · intro j y hj hy; omega
      · have hbb : b = b' := by rw [← hb, heq]
        subst hbb
        refine ⟨k + 1, by simpa using hget, ?_, ?_⟩
        · intro x hx
          rcases List.mem_cons.1 hx with h1 | h1
          · rw [h1]; exact le_of_lt hlt
          · exact hall x h1
        · intro j y hj hy
          cases j with
          | zero =>
            simp only [List.get?_cons_zero, Option.some_inj] at hy
            rw [← hy]; exact hlt
          | succ j' =>
            simp only [List.get?_cons_succ] at hy
            exact hpre j' y (by omega) hy
  · intro hvi hfetch y hy
    rw [applyHints, List.get?_map, hvi] at hy
    simp at hy
    rw [← hy]
    unfold hintOne
    rw [hfetch]
    cases hb : bestOf hist with
    | none => simp [hb]
    | some b => simp [hb]

def demoAHinted : ExerciseData :=
  ⟨"exA", "Bench", [⟨none, 1, 0, 0, none, false⟩, ⟨none, 2, 0, 0, none, false⟩,
    ⟨none, 3, 0, 0, none, false⟩], some (120, 5), true⟩

/-- C5 witness: on the concrete history `[100×10, 120×5, 120×8, 90×1]` the
hint is 120×5 (first of the two 120-weight entries), an empty history yields
no hint, and the hint lands in the exercise entry. -/
theorem claim_C5_witness :
    (∃ k, histDemo.get? k = some ⟨120, 5⟩ ∧
      (∀ x ∈ histDemo, x.weight ≤ (HistoryEntry.mk 120 5).weight) ∧
      ∀ j y, j < k → histDemo.get? j = some y →
        y.weight < (HistoryEntry.mk 120 5).weight) ∧
    (bestOf [] = none ↔ ([] : List HistoryEntry) = []) ∧
    demoAHinted.previousBest =
      (match bestOf histDemo with
        | some b => some (b.weight, b.reps)
        | none => demoA.previousBest) :=
  ⟨(claim_C5_previous_best histDemo fetchOkAll [demoA] 0 demoA histDemo).2.1
      ⟨120, 5⟩ (by decide),
   (claim_C5_previous_best [] fetchOkAll [demoA] 0 demoA []).1,
   by decide⟩

/-- C9: the log-set request is issued iff weight and reps are both strictly
positive; otherwise `handleLogSet` returns without sending anything and
leaves the view (hence the set's unlogged flag) untouched. -/
theorem claim_C9_log_guard (view : List ExerciseData) (eid : String)
    (s : SetData) :
    ((handleLogSet view eid s).1 ≠ none ↔ (0 < s.weight ∧ 0 < s.reps)) ∧
    ((s.weight ≤ 0 ∨ s.reps ≤ 0) → handleLogSet view eid s = (none, view)) ∧
    (0 < s.weight → 0 < s.reps →
      (handleLogSet view eid s).1 =
        some ⟨eid, s.set_number, s.weight, s.reps⟩) := by
  unfold handleLogSet
  by_cases h : s.weight ≤ 0 ∨ s.reps ≤ 0
  · rw [if_pos h]
    refine ⟨?_, fun _ => rfl, ?_⟩
    · simp only [ne_eq, not_true_eq_false, false_iff, not_and]
      intro h1 h2
      rcases h with h | h <;> linarith
    · intro h1 h2
      exfalso
      rcases h with h | h <;> linarith
  · rw [if_neg h]
    push_neg at h
    refine ⟨?_, ?_, fun _ _ => rfl⟩
    · simp only [ne_eq, reduceCtorEq, not_false_eq_true, true_iff]
      exact ⟨h.1, h.2⟩
    · intro hc
      exfalso
      rcases hc with hc | hc
      · exact absurd hc (not_le.2 h.1)
      · exact absurd hc (not_le.2 h.2)

/-- C9 witness: a set with weight 0 is not sent and the view is unchanged; a
set with weight 10 and reps 5 is sent with exactly those values. -/
theorem claim_C9_witness :
    (handleLogSet [demoA] "exA" ⟨none, 1, 0, 5, none, false⟩ =
      (none, [demoA])) ∧
    (handleLogSet [demoA] "exA" ⟨none, 1, 10, 5, none, false⟩).1 =
      some ⟨"exA", 1, 10, 5⟩ :=
  ⟨(claim_C9_log_guard [demoA] "exA" ⟨none, 1, 0, 5, none, false⟩).2.1
      (Or.inl (by norm_num)),
   (claim_C9_log_guard [demoA] "exA" ⟨none, 1, 10, 5, none, false⟩).2.2
      (by norm_num) (by norm_num)⟩

/-- C8: the saved routine payload carries the full submitted exercise list
with `order` densely renumbered 0..n-1 by array position, independent of the
forms' own order values; an untrimmed-empty name aborts the save. -/
theorem claim_C8_save_renumbers (name : String) (day : Int)
    (fs : List RoutineExerciseForm) :
    (jsTrim name = "" → buildRoutineInput name day fs = none) ∧
    (jsTrim name ≠ "" → ∃ inp, buildRoutineInput name day fs = some inp ∧
      inp.name = name ∧ inp.schedule_day_index = day ∧
      inp.exercises.length = fs.length ∧
      ∀ i e, fs.get? i = some e →
        inp.exercises.get? i = some ⟨e.exercise_id, (i : Int), e.target_sets,
          e.target_reps_min, e.target_reps_max⟩) := by
  constructor
  · intro h
    unfold buildRoutineInput
    rw [if_pos h]
  · intro h
    refine ⟨_, by unfold buildRoutineInput; rw [if_neg h], rfl, rfl, ?_, ?_⟩
    · simp [List.enum_length]
    · intro i e he
      simp only [List.get?_map, List.get?_enum, he]
      rfl

/-- C8 witness: two form rows with stray order values 7 and 3 are submitted
with orders 0 and 1; a whitespace-only name aborts. -/
theorem claim_C8_witness :
    buildRoutineInput "   " 1 [⟨"e1", "a", 7, 3, 8, 12⟩] = none ∧
    (∃ inp, buildRoutineInput "Push" 1
        [⟨"e1", "a", 7, 3, 8, 12⟩, ⟨"e2", "b", 3, 4, 5, 6⟩] = some inp ∧
      inp.name = "Push" ∧ inp.schedule_day_index = 1 ∧
      inp.exercises.length = 2 ∧
      ∀ i e, ([⟨"e1", "a", 7, 3, 8, 12⟩,
          (⟨"e2", "b", 3, 4, 5, 6⟩ : RoutineExerciseForm)] : List RoutineExerciseForm).get? i = some e →
        inp.exercises.get? i = some ⟨e.exercise_id, (i : Int), e.target_sets,
          e.target_reps_min, e.target_reps_max⟩) :=
  ⟨(claim_C8_save_renumbers "   " 1 [⟨"e1", "a", 7, 3, 8, 12⟩]).1 (by decide),
   (claim_C8_save_renumbers "Push" 1
      [⟨"e1", "a", 7, 3, 8, 12⟩, ⟨"e2", "b", 3, 4, 5, 6⟩]).2 (by decide)⟩

theorem findIdx?_none_iff {α : Type} (p : α → Bool) (l : List α) :
    l.findIdx? p = none ↔ ∀ x ∈ l, p x = false := by
  induction l with
  | nil => simp
  | cons hd tl ih =>
    rw [List.findIdx?_cons]
    by_cases hp : p hd = true
    · simp [hp]
    · rw [if_neg hp, List.findIdx?_succ]
      rw [Option.map_eq_none']
      rw [ih]
      constructor
      · intro h x hx
        rcases List.mem_cons.1 hx with h1 | h1
        · rw [h1]; exact Bool.eq_false_iff.2 hp
        · exact h x h1
      · intro h x hx
        exact h x (List.mem_cons_of_mem _ hx)

theorem findIdx?_some_iff_first {α : Type} (p : α → Bool) (l : List α) :
    ∀ k : ℕ, l.findIdx? p = some k ↔
      ((∃ x, l.get? k = some x ∧ p x = true) ∧
        ∀ j y, j < k → l.get? j = some y → p y = false) := by
  induction l with
  | nil => intro k; simp
  | cons hd tl ih =>
    intro k
    rw [List.findIdx?_cons]
    by_cases hp : p hd = true
    · rw [if_pos hp]
      cases k with
      | zero =>
        constructor
        · intro _
          exact ⟨⟨hd, rfl, hp⟩, fun j y hj _ => absurd hj (Nat.not_lt_zero j)⟩
        · intro _; rfl
      | succ k' =>
        constructor
        · intro h; exact absurd h (by simp)
        · rintro ⟨-, h2⟩
          exact absurd (h2 0 hd (Nat.succ_pos k') rfl) (by simp [hp])
    · rw [if_neg hp, List.findIdx?_succ]
      cases k with
      | zero =>
        constructor
        · intro h
          rw [Option.map_eq_some'] at h
          rcases h with ⟨k', -, hk'⟩
          omega
        · rintro ⟨⟨x, hx, hpx⟩, -⟩
          simp only [List.get?_cons_zero, Option.some_inj] at hx
          rw [← hx] at hpx
          exact absurd hpx hp
      | succ k' =>
        have hms : (Option.map (fun i => i + 1) (tl.findIdx? p) = some (k' + 1)) ↔
            tl.findIdx? p = some k' := by
          rw [Option.map_eq_some']
          constructor
          · rintro ⟨a, ha, hak⟩
            have haa : a = k' := by omega
            exact haa ▸ ha
          · intro h; exact ⟨k', h, rfl⟩
        rw [hms, ih k']
        constructor
        · rintro ⟨⟨x, hx, hpx⟩, h2⟩
          refine ⟨⟨x, by simpa using hx, hpx⟩, ?_⟩
          intro j y hj hy
          cases j with
          | zero =>
            simp only [List.get?_cons_zero, Option.some_inj] at hy
            rw [← hy]
            exact Bool.eq_false_iff.2 hp
          | succ j' =>
            simp only [List.get?_cons_succ] at hy
            exact h2 j' y (by omega) hy
        · rintro ⟨⟨x, hx, hpx⟩, h2⟩
          refine ⟨⟨x, by simpa using hx, hpx⟩, ?_⟩
          intro j y hj hy
          exact h2 (j + 1) y (by omega) (by simpa using hy)

theorem overlaySet_cons_skip {y : ExerciseData} {t : List ExerciseData}
    {s : WorkoutSet} (hy : ¬ y.exercise_id = s.exercise_id) :
    overlaySet (y :: t) s = y :: overlaySet t s := by
  unfold overlaySet
  have hc : ((y :: t).any fun ex => ex.exercise_id = s.exercise_id) =
      (t.any fun ex => ex.exercise_id = s.exercise_id) := by
    rw [List.any_cons]
    simp [hy]
  rw [hc]
  by_cases h : (t.any fun ex => ex.exercise_id = s.exercise_id) = true
  · rw [if_pos h, if_pos h, List.map_cons, if_neg hy]
  · rw [if_neg h, if_neg h]
    rfl

theorem find?_overlaySet {m : List ExerciseData} {s : WorkoutSet}
    {ex : ExerciseData}
    (hfind : m.find? (fun x => x.exercise_id = s.exercise_id) = some ex) :
    (overlaySet m s).find? (fun x => x.exercise_id = s.exercise_id) =
      some (overlayIntoExercise ex s) := by
  induction m with
  | nil => simp at hfind
  | cons y t ih =>
    by_cases hy : y.exercise_id = s.exercise_id
    · have hpy : (fun x => decide (x.exercise_id = s.exercise_id)) y = true := by
        simp [hy]
      rw [List.find?_cons_of_pos t hpy] at hfind
      obtain rfl : y = ex := Option.some_inj.1 hfind
      have hany : (y :: t).any (fun x => x.exercise_id = s.exercise_id) = true := by
        simp [hy]
      unfold overlaySet
      rw [if_pos hany, List.map_cons, if_pos hy]
      refine List.find?_cons_of_pos _ ?_
      simp [overlayIntoExercise_exercise_id, hy]
    · rw [overlaySet_cons_skip hy]
      have hpy : ¬ (fun x => decide (x.exercise_id = s.exercise_id)) y = true := by
        simp [hy]
      rw [List.find?_cons_of_neg t hpy] at hfind
      rw [List.find?_cons_of_neg (overlaySet t s) hpy]
      exact ih hfind

theorem overlaySet_get?_other {m : List ExerciseData} {s : WorkoutSet}
    {i : ℕ} {x : ExerciseData} (hx : m.get? i = some x)
    (hne : x.exercise_id ≠ s.exercise_id) :
    (overlaySet m s).get? i = some x := by
  unfold overlaySet
  split
  · rw [List.get?_map, hx]
    simp [hne]
  · rw [List.get?_append]
    · exact hx
    · exact (List.get?_eq_some.1 hx).1

theorem mergeSort_sets_sorted (sets : List SetData) :
    List.Pairwise (fun a b => a.set_number ≤ b.set_number)
      (sets.mergeSort (fun a b => a.set_number ≤ b.set_number)) := by
  have hs := @List.sorted_mergeSort SetData
    (fun a b => a.set_number ≤ b.set_number)
    (fun a b c hab hbc => by
      simp only [decide_eq_true_eq] at *
      exact le_trans hab hbc)
    (fun a b => by
      simp only [Bool.or_eq_true, decide_eq_true_eq]
      exact le_total a.set_number b.set_number)
    sets
  exact hs.imp (fun h => by simpa using h)

/-- What the fused loop does to each exercise's set list: entries at or
before the first incomplete exercise are sorted ascending by set_number (as a
permutation of their overlaid sets), entries after the break are returned
exactly as they were. -/
theorem sortAndExpand_sets_spec (l : List ExerciseData) :
    ∀ (i : ℕ) (y : ExerciseData), (sortAndExpand l).get? i = some y →
      ∃ x, l.get? i = some x ∧ y.exercise_id = x.exercise_id ∧
        ((∀ j z, j < i → (sortAndExpand l).get? j = some z →
            allLogged z = true) →
          (y.sets.Perm x.sets ∧
            List.Pairwise (fun a b => a.set_number ≤ b.set_number) y.sets)) ∧
        ((¬ ∀ j z, j < i → (sortAndExpand l).get? j = some z →
            allLogged z = true) → y = x) := by
  induction l with
  | nil => intro i y hy; simp [sortAndExpand] at hy
  | cons ex0 rest ih =>
    by_cases hall : ((ex0.sets.mergeSort
        (fun a b => a.set_number ≤ b.set_number)).all fun s => s.logged) = true
    · have hme : sortAndExpand (ex0 :: rest) =
          { ex0 with sets := ex0.sets.mergeSort (fun a b => a.set_number ≤ b.set_number) } ::
            sortAndExpand rest := by
        simp [sortAndExpand, hall]
      rw [hme]
      intro i y hy
      cases i with
      | zero =>
        simp only [List.get?_cons_zero, Option.some_inj] at hy
        subst hy
        refine ⟨ex0, rfl, rfl, ?_, ?_⟩
        · intro _
          exact ⟨List.mergeSort_perm ex0.sets _, mergeSort_sets_sorted ex0.sets⟩
        · intro hc
          exact absurd (fun j z hj _ => absurd hj (by omega)) hc
      | succ k =>
        simp only [List.get?_cons_succ] at hy
        rcases ih k y hy with ⟨x, hxg, hid, h1, h2⟩
        refine ⟨x, by simpa using hxg, hid, ?_, ?_⟩
        · intro hw
          refine h1 ?_
          intro j z hj hz
          exact hw (j + 1) z (by omega) (by simpa using hz)
        · intro hnw
          refine h2 ?_
          intro hr
          refine hnw ?_
          intro j z hj hz
          cases j with
          | zero =>
            simp only [List.get?_cons_zero, Option.some_inj] at hz
            subst hz
            simpa [allLogged] using hall
          | succ j2 =>
            simp only [List.get?_cons_succ] at hz
            exact hr j2 z (by omega) hz
    · have hme : sortAndExpand (ex0 :: rest) =
          { ex0 with sets := ex0.sets.mergeSort (fun a b => a.set_number ≤ b.set_number), expanded := true } ::
            rest := by
        simp [sortAndExpand, hall]
      rw [hme]
      intro i y hy
      cases i with
      | zero =>
        simp only [List.get?_cons_zero, Option.some_inj] at hy
        subst hy
        refine ⟨ex0, rfl, rfl, ?_, ?_⟩
        · intro _
          exact ⟨List.mergeSort_perm ex0.sets _, mergeSort_sets_sorted ex0.sets⟩
        · intro hc
          exact absurd (fun j z hj _ => absurd hj (by omega)) hc
      | succ k =>
        simp only [List.get?_cons_succ] at hy
        refine ⟨y, by simpa using hy, rfl, ?_, fun _ => rfl⟩
        intro hw
        exfalso
        have h0 := hw 0 { ex0 with sets := ex0.sets.mergeSort (fun a b => a.set_number ≤ b.set_number), expanded := true }
          (by omega) (by simp)
        have h1 : ((ex0.sets.mergeSort
            (fun a b => a.set_number ≤ b.set_number)).all
              fun s => s.logged) = true := by
          simpa [allLogged] using h0
        exact hall h1

/-- C3 (amended): overlaying a persisted set replaces the entry with the same
exercise and set_number when one exists (first occurrence, marked logged,
carrying the real id/weight/reps/rpe), otherwise appends to that exercise's
set list; entries of other exercises are untouched. The subsequent sort runs
inside the expansion loop, so set lists end up ascending by set_number (as a
permutation of the overlaid sets) only for exercises up to and including the
first incomplete one — the break leaves every later exercise's sets exactly
as overlaid. -/
theorem claim_C3_overlay_replace_append (m : List ExerciseData)
    (s : WorkoutSet) (ex : ExerciseData) :
    ((loggedSetData s).logged = true ∧ (loggedSetData s).id = some s.id ∧
      (loggedSetData s).set_number = s.set_number ∧
      (loggedSetData s).weight = s.weight ∧
      (loggedSetData s).reps = s.reps ∧ (loggedSetData s).rpe = s.rpe) ∧
    (m.find? (fun x => x.exercise_id = s.exercise_id) = some ex →
      ∀ k t0, ex.sets.get? k = some t0 → t0.set_number = s.set_number →
        (∀ j y, j < k → ex.sets.get? j = some y →
          y.set_number ≠ s.set_number) →
        (overlaySet m s).find? (fun x => x.exercise_id = s.exercise_id) =
          some { ex with sets := ex.sets.set k (loggedSetData s) }) ∧
    (m.find? (fun x => x.exercise_id = s.exercise_id) = some ex →
      (∀ t ∈ ex.sets, t.set_number ≠ s.set_number) →
      (overlaySet m s).find? (fun x => x.exercise_id = s.exercise_id) =
        some { ex with sets := ex.sets ++ [loggedSetData s] }) ∧
    (∀ i x, m.get? i = some x → x.exercise_id ≠ s.exercise_id →
      (overlaySet m s).get? i = some x) ∧
    (∀ i y, (sortAndExpand m).get? i = some y →
      ∃ x, m.get? i = some x ∧ y.exercise_id = x.exercise_id ∧
        ((∀ j z, j < i → (sortAndExpand m).get? j = some z →
            allLogged z = true) →
          (y.sets.Perm x.sets ∧
            List.Pairwise (fun a b => a.set_number ≤ b.set_number) y.sets)) ∧
        ((¬ ∀ j z, j < i → (sortAndExpand m).get? j = some z →
            allLogged z = true) → y = x)) := by
  refine ⟨⟨rfl, rfl, rfl, rfl, rfl, rfl⟩, ?_, ?_, ?_, sortAndExpand_sets_spec m⟩
  · intro hfind k t0 hk ht0 hfirst
    have hidx : ex.sets.findIdx? (fun t => t.set_number = s.set_number) =
        some k := by
      rw [findIdx?_some_iff_first]
      refine ⟨⟨t0, hk, by simp [ht0]⟩, ?_⟩
      intro j y hj hy
      simp only [decide_eq_false_iff_not]
      exact hfirst j y hj hy
    have hover : overlayIntoExercise ex s =
        { ex with sets := ex.sets.set k (loggedSetData s) } := by
      unfold overlayIntoExercise
      rw [hidx]
    rw [find?_overlaySet hfind, hover]
  · intro hfind hnone
    have hidx : ex.sets.findIdx? (fun t => t.set_number = s.set_number) =
        none := by
      rw [findIdx?_none_iff]
      intro x hx
      simp only [decide_eq_false_iff_not]
      exact hnone x hx
    have hover : overlayIntoExercise ex s =
        { ex with sets := ex.sets ++ [loggedSetData s] } := by
      unfold overlayIntoExercise
      rw [hidx]
    rw [find?_overlaySet hfind, hover]
  · intro i x hx hne
    exact overlaySet_get?_other hx hne

def rtOnlyA : Routine := ⟨"r2", "PushA", 1, [rA]⟩

def wsD2 : WorkoutSet := ⟨"d2", "exD", 2, 50, 5, none, some "Dip"⟩

def wsD1 : WorkoutSet := ⟨"d1", "exD", 1, 60, 6, none, some "Dip"⟩

def unsortedD : ExerciseData :=
  ⟨"exD", "Dip", [⟨some "d2", 2, 50, 5, none, true⟩,
    ⟨some "d1", 1, 60, 6, none, true⟩], none, false⟩

def cexView : List ExerciseData :=
  buildView (some "PushA") [rtOnlyA] [wsD2, wsD1]

theorem cexView_eq : cexView = [demoA, unsortedD] := by
  simp [cexView, buildView, seedPhase, mapSet, seedExercise, overlaySet,
    overlayIntoExercise, freshExercise, loggedSetData, sortAndExpand,
    List.mergeSort, allLogged, rtOnlyA, rA, wsD2, wsD1, demoA, unsortedD,
    List.range, List.range.loop, List.findIdx?]

/-- C3 counterexample: with incomplete exercise A first and a fully logged
ad-hoc exercise D whose sets were overlaid in order 2 then 1, the built view
leaves D's sets as [2, 1] — not sorted ascending by set_number, refuting the
original claim's unconditional sort clause. -/
theorem claim_C3_counterexample :
    (buildView (some "PushA") [rtOnlyA] [wsD2, wsD1]).get? 1 =
      some unsortedD ∧
    unsortedD.sets.map (fun t => t.set_number) = [2, 1] ∧
    ¬ List.Pairwise (fun a b : SetData => a.set_number ≤ b.set_number)
      unsortedD.sets :=
  ⟨by rw [show buildView (some "PushA") [rtOnlyA] [wsD2, wsD1] = cexView
        from rfl, cexView_eq]; rfl,
   by decide,
   by decide⟩

def wsB3 : WorkoutSet := ⟨"s3", "exB", 5, 50, 5, none, some "Row"⟩

def seededDemo : List ExerciseData := [seedExercise rA, seedExercise rB]

def expandedSeedA : ExerciseData := { seedExercise rA with expanded := true }

/-- C3 witness: overlaying B's set 1 replaces B's first placeholder in place;
overlaying a set numbered 5 (absent) appends; A's entry is untouched by the
overlay; the fused loop sorts the first exercise (index 0, before the break)
ascending. -/
theorem claim_C3_witness :
    (overlaySet seededDemo wsB1).find?
        (fun x => x.exercise_id = wsB1.exercise_id) =
      some { seedExercise rB with
              sets := (seedExercise rB).sets.set 0 (loggedSetData wsB1) } ∧
    (overlaySet seededDemo wsB3).find?
        (fun x => x.exercise_id = wsB3.exercise_id) =
      some { seedExercise rB with
              sets := (seedExercise rB).sets ++ [loggedSetData wsB3] } ∧
    (overlaySet seededDemo wsB1).get? 0 = some (seedExercise rA) ∧
    (∃ x, seededDemo.get? 0 = some x ∧
      expandedSeedA.exercise_id = x.exercise_id ∧
      ((∀ j z, j < 0 → (sortAndExpand seededDemo).get? j = some z →
          allLogged z = true) →
        (expandedSeedA.sets.Perm x.sets ∧
          List.Pairwise (fun a b => a.set_number ≤ b.set_number)
            expandedSeedA.sets)) ∧
      ((¬ ∀ j z, j < 0 → (sortAndExpand seededDemo).get? j = some z →
          allLogged z = true) → expandedSeedA = x)) :=
  ⟨(claim_C3_overlay_replace_append seededDemo wsB1 (seedExercise rB)).2.1
      (by decide) 0 ⟨none, 1, 0, 0, none, false⟩ (by decide) (by decide)
      (fun j y hj _ => absurd hj (by omega)),
   (claim_C3_overlay_replace_append seededDemo wsB3 (seedExercise rB)).2.2.1
      (by decide) (by decide),
   (claim_C3_overlay_replace_append seededDemo wsB1
      (seedExercise rB)).2.2.2.1 0 (seedExercise rA) (by decide) (by decide),
   (claim_C3_overlay_replace_append seededDemo wsB1
      (seedExercise rB)).2.2.2.2 0 expandedSeedA
      (by simp [sortAndExpand, seededDemo, seedExercise, rA, rB,
        List.mergeSort, List.range, List.range.loop, expandedSeedA])⟩

theorem foldl_max_bounds (l : List SetData) :
    ∀ c : ℤ, c ≤ l.foldl (fun m s => max m s.set_number) c ∧
      ∀ t ∈ l, t.set_number ≤ l.foldl (fun m s => max m s.set_number) c := by
  induction l with
  | nil => intro c; exact ⟨le_refl c, by simp⟩
  | cons hd tl ih =>
    intro c
    rw [List.foldl_cons]
    rcases ih (max c hd.set_number) with ⟨h1, h2⟩
    refine ⟨le_trans (le_max_left _ _) h1, ?_⟩
    intro t ht
    rcases List.mem_cons.1 ht with h | h
    · rw [h]; exact le_trans (le_max_right _ _) h1
    · exact h2 t h

theorem foldl_max_attained (l : List SetData) :
    ∀ c : ℤ, l.foldl (fun m s => max m s.set_number) c = c ∨
      ∃ t ∈ l, l.foldl (fun m s => max m s.set_number) c = t.set_number := by
  induction l with
  | nil => intro c; exact Or.inl rfl
  | cons hd tl ih =>
    intro c
    rw [List.foldl_cons]
    rcases ih (max c hd.set_number) with h | ⟨t, ht, h⟩
    · rw [h]
      rcases max_cases c hd.set_number with ⟨h1, -⟩ | ⟨h1, -⟩
      · exact Or.inl h1
      · exact Or.inr ⟨hd, List.mem_cons_self _ _, h1⟩
    · exact Or.inr ⟨t, List.mem_cons_of_mem _ ht, h⟩

theorem updateExercise_of_absent (v : List ExerciseData) (eid : String)
    (f : ExerciseData → ExerciseData)
    (h : ∀ z ∈ v, z.exercise_id ≠ eid) : updateExercise v eid f = v := by
  induction v with
  | nil => rfl
  | cons y t ih =>
    unfold updateExercise at ih ⊢
    rw [List.map_cons, if_neg (h y (List.mem_cons_self _ _)),
      ih (fun z hz => h z (List.mem_cons_of_mem _ hz))]

theorem updateExercise_eq_set (view : List ExerciseData) :
    ∀ (i : ℕ) (ex : ExerciseData) (eid : String)
      (f : ExerciseData → ExerciseData),
      (view.map (fun e => e.exercise_id)).Nodup →
      view.get? i = some ex → ex.exercise_id = eid →
      updateExercise view eid f = view.set i (f ex) := by
  induction view with
  | nil => intro i ex eid f _ hi _; simp at hi
  | cons y t ih =>
    intro i ex eid f hnd hi hid
    simp only [List.map_cons, List.nodup_cons] at hnd
    cases i with
    | zero =>
      simp only [List.get?_cons_zero, Option.some_inj] at hi
      subst hi
      unfold updateExercise
      rw [List.map_cons, if_pos hid, List.set_cons_zero]
      congr 1
      have habs : ∀ z ∈ t, z.exercise_id ≠ eid := by
        intro z hz hc
        exact hnd.1 (hid ▸ hc ▸ List.mem_map_of_mem (fun e => e.exercise_id) hz)
      have := updateExercise_of_absent t eid f habs
      unfold updateExercise at this
      exact this
    | succ k =>
      simp only [List.get?_cons_succ] at hi
      have hyne : y.exercise_id ≠ eid := by
        intro hc
        refine hnd.1 ?_
        rw [hc, ← hid]
        exact List.mem_map_of_mem (fun e => e.exercise_id)
          (List.get?_mem hi)
      unfold updateExercise
      rw [List.map_cons, if_neg hyne, List.set_cons_succ]
      congr 1
      have := ih k ex eid f hnd.2 hi hid
      unfold updateExercise at this
      exact this

/-- C7 (amended): adding a set to an exercise appends exactly one unlogged
set, pre-filled with the last set's weight and reps, numbered
`max(0, maximum existing set number) + 1`: the new number is always at least
1, equals one more than the maximum existing set number whenever some existing
set number is non-negative, and is clamped to 1 (not max + 1) when every
existing set number is negative; all previous sets and all other exercises
are unchanged. -/
theorem claim_C7_add_set (view : List ExerciseData) (i : ℕ)
    (ex : ExerciseData) (eid : String) (ls : SetData)
    (hnd : (view.map (fun e => e.exercise_id)).Nodup)
    (hi : view.get? i = some ex) (hid : ex.exercise_id = eid)
    (hlast : ex.sets.getLast? = some ls) :
    ∃ N : ℤ,
      addSetToExercise view eid = view.set i { ex with sets := ex.sets ++
        [{ id := none, set_number := N, weight := ls.weight, reps := ls.reps,
           rpe := none, logged := false }] } ∧
      1 ≤ N ∧
      (∀ t ∈ ex.sets, t.set_number ≤ N - 1) ∧
      (N - 1 = 0 ∨ ∃ t ∈ ex.sets, t.set_number = N - 1) ∧
      ((∃ t ∈ ex.sets, 0 ≤ t.set_number) →
        ∃ t ∈ ex.sets, t.set_number = N - 1) := by
  refine ⟨(ex.sets.foldl (fun m s => max m s.set_number) 0) + 1,
    ?_, ?_, ?_, ?_, ?_⟩
  · rw [addSetToExercise, updateExercise_eq_set view i ex eid _ hnd hi hid]
    congr 1
    simp only [hlast, Option.map_some', Option.getD_some]
  · have := (foldl_max_bounds ex.sets 0).1
    omega
  · intro t ht
    have := (foldl_max_bounds ex.sets 0).2 t ht
    omega
  · rcases foldl_max_attained ex.sets 0 with h | ⟨t, ht, h⟩
    · exact Or.inl (by omega)
    · exact Or.inr ⟨t, ht, by omega⟩
  · rintro ⟨t0, ht0, hpos0⟩
    rcases foldl_max_attained ex.sets 0 with h | ⟨t, ht, h⟩
    · have hb := (foldl_max_bounds ex.sets 0).2 t0 ht0
      rw [h] at hb
      exact ⟨t0, ht0, by omega⟩
    · exact ⟨t, ht, by omega⟩

def negEx : ExerciseData :=
  ⟨"exN", "Neg", [⟨some "sN", -3, 50, 5, none, true⟩], none, false⟩

/-- C7 counterexample: with every existing set number negative (a single set
numbered -3), the `Math.max(0, ...) + 1` clamp makes the code append a set
numbered 1, not max existing + 1 = -2 as the original claim asserted. -/
theorem claim_C7_counterexample :
    addSetToExercise [negEx] "exN" = [{ negEx with sets := negEx.sets ++
      [{ id := none, set_number := 1, weight := 50, reps := 5,
         rpe := none, logged := false }] }] ∧
    (∀ t ∈ negEx.sets, t.set_number = -3) ∧
    (1 : ℤ) ≠ -3 + 1 :=
  ⟨by decide, by decide, by decide⟩

/-- C7 witness: adding a set to B (sets 1 and 2, last = 80×12) appends set 3
pre-filled with 80×12, unlogged, and leaves A alone. -/
theorem claim_C7_witness :
    ∃ N : ℤ,
      addSetToExercise [demoA, demoB] "exB" = [demoA, demoB].set 1
        { demoB with sets := demoB.sets ++
          [{ id := none, set_number := N, weight := 80, reps := 12,
             rpe := none, logged := false }] } ∧
      1 ≤ N ∧
      (∀ t ∈ demoB.sets, t.set_number ≤ N - 1) ∧
      (N - 1 = 0 ∨ ∃ t ∈ demoB.sets, t.set_number = N - 1) ∧
      ((∃ t ∈ demoB.sets, 0 ≤ t.set_number) →
        ∃ t ∈ demoB.sets, t.set_number = N - 1) :=
  claim_C7_add_set [demoA, demoB] 1 demoB "exB"
    ⟨some "s2", 2, 80, 12, none, true⟩ (by decide) (by decide) (by decide)
    (by decide)

/-! ## Volume and uniqueness bookkeeping (proof abbreviations) -/

/-- Proof abbreviation: the volume contributed by one exercise card's logged
sets. -/
def exVol (ex : ExerciseData) : ℚ :=
  ((ex.sets.filter (fun s => s.logged)).map (fun s => s.weight * s.reps)).sum

/-- Proof abbreviation: the (exercise id, set number) keys of the logged sets
of a view, in order. -/
def loggedPairs (m : List ExerciseData) : List (String × ℤ) :=
  m.bind (fun ex => (ex.sets.filter (fun s => s.logged)).map
    (fun s => (ex.exercise_id, s.set_number)))

theorem foldl_add_sum {α : Type} (f : α → ℚ) :
    ∀ (l : List α) (c : ℚ), l.foldl (fun a x => a + f x) c = c + (l.map f).sum := by
  intro l
  induction l with
  | nil => intro c; simp
  | cons hd tl ih =>
    intro c
    rw [List.foldl_cons, ih, List.map_cons, List.sum_cons]
    ring

theorem totalVolume_eq_sum (m : List ExerciseData) :
    totalVolume m = (m.map exVol).sum := by
  unfold totalVolume
  have hinner : ∀ ex : ExerciseData,
      (ex.sets.filter (fun s => s.logged)).foldl
        (fun setSum s => setSum + s.weight * s.reps) 0 = exVol ex := by
    intro ex
    rw [foldl_add_sum (fun s : SetData => s.weight * s.reps), zero_add]
    rfl
  calc m.foldl (fun sum ex =>
        sum + (ex.sets.filter (fun s => s.logged)).foldl
          (fun setSum s => setSum + s.weight * s.reps) 0) 0
      = m.foldl (fun sum ex => sum + exVol ex) 0 := by
        congr 1
        funext sum ex
        rw [hinner]
    _ = 0 + (m.map exVol).sum := foldl_add_sum exVol m 0
    _ = (m.map exVol).sum := zero_add _

theorem detailTotalVolume_eq_sum (ws : List WorkoutSet) :
    detailTotalVolume ws = (ws.map (fun s => s.weight * s.reps)).sum := by
  unfold detailTotalVolume
  rw [foldl_add_sum (fun s : WorkoutSet => s.weight * s.reps), zero_add]

theorem mapSet_keys_nodup {m : List ExerciseData} {e : ExerciseData}
    (h : (m.map (fun x => x.exercise_id)).Nodup) :
    ((mapSet m e).map (fun x => x.exercise_id)).Nodup := by
  unfold mapSet
  split
  · have : (m.map (fun x => if x.exercise_id = e.exercise_id then e else x)).map
        (fun x => x.exercise_id) = m.map (fun x => x.exercise_id) := by
      rw [List.map_map]
      refine List.map_congr_left ?_
      intro x _
      by_cases hx : x.exercise_id = e.exercise_id
      · simp [hx]
      · simp [hx]
    rw [this]
    exact h
  · rename_i hany
    rw [List.map_append]
    refine List.Nodup.append h (by simp) ?_
    intro a ha hb
    simp only [List.map_cons, List.map_nil, List.mem_singleton] at hb
    rcases List.mem_map.1 ha with ⟨x, hx, hxa⟩
    refine hany ?_
    rw [List.any_eq_true]
    exact ⟨x, hx, by simp [hxa, hb]⟩

theorem seedPhase_keys_nodup (rn : Option String) (rs : List Routine) :
    ((seedPhase rn rs).map (fun x => x.exercise_id)).Nodup := by
  unfold seedPhase
  rcases rn with _ | n
  · simp
  · dsimp only
    split
    · simp
    · split
      · simp
      · rename_i r _
        suffices h : ∀ (l : List RoutineExercise) (acc : List ExerciseData),
            (acc.map (fun x => x.exercise_id)).Nodup →
            (((l.foldl (fun m ex => mapSet m (seedExercise ex)) acc)).map
              (fun x => x.exercise_id)).Nodup by
          exact h r.exercises [] (by simp)
        intro l
        induction l with
        | nil => intro acc hacc; exact hacc
        | cons hd tl ih =>
          intro acc hacc
          exact ih (mapSet acc (seedExercise hd)) (mapSet_keys_nodup hacc)

theorem seedPhase_unlogged {rn : Option String} {rs : List Routine}
    {x : ExerciseData} (hx : x ∈ seedPhase rn rs) :
    ∀ s ∈ x.sets, s.logged = false := by
  rcases seedPhase_mem hx with ⟨ex, hex⟩
  subst hex
  intro s hs
  rcases List.mem_map.1 hs with ⟨i, -, hi⟩
  rw [← hi]

theorem seedPhase_setNums_nodup {rn : Option String} {rs : List Routine}
    {x : ExerciseData} (hx : x ∈ seedPhase rn rs) :
    (x.sets.map (fun s => s.set_number)).Nodup := by
  rcases seedPhase_mem hx with ⟨ex, hex⟩
  subst hex
  show (((List.range ex.target_sets).map (fun (i : Nat) =>
    ({ id := none, set_number := (i : Int) + 1, weight := 0, reps := 0,
       rpe := none, logged := false } : SetData))).map
      (fun s => s.set_number)).Nodup
  rw [List.map_map]
  refine List.Nodup.map ?_ (List.nodup_range ex.target_sets)
  intro a b hab
  simp only [Function.comp] at hab
  omega

theorem filter_set_perm (v : SetData) (hv : v.logged = true) :
    ∀ (l : List SetData) (i : ℕ) (t0 : SetData),
      l.get? i = some t0 → t0.logged = false →
      ((l.set i v).filter (fun t => t.logged)).Perm
        (v :: l.filter (fun t => t.logged)) := by
  intro l
  induction l with
  | nil => intro i t0 hi _; simp at hi
  | cons hd tl ih =>
    intro i t0 hi ht0
    cases i with
    | zero =>
      simp only [List.get?_cons_zero, Option.some_inj] at hi
      subst hi
      rw [List.set_cons_zero, List.filter_cons, List.filter_cons]
      simp only [hv, if_true, ht0, Bool.false_eq_true, if_false]
      exact List.Perm.refl _
    | succ k =>
      simp only [List.get?_cons_succ] at hi
      rw [List.set_cons_succ]
      by_cases hhd : hd.logged = true
      · rw [List.filter_cons, List.filter_cons]
        simp only [hhd, if_true]
        exact ((ih k t0 hi ht0).cons hd).trans (List.Perm.swap v hd _)
      · rw [List.filter_cons, List.filter_cons]
        simp only [hhd, if_false]
        have hhd2 : hd.logged = false := by simpa using hhd
        simp only [hhd2, Bool.false_eq_true, if_false]
        exact ih k t0 hi ht0

theorem map_set_same_number :
    ∀ (l : List SetData) (i : ℕ) (v t0 : SetData),
      l.get? i = some t0 → v.set_number = t0.set_number →
      (l.set i v).map (fun t => t.set_number) =
        l.map (fun t => t.set_number) := by
  intro l
  induction l with
  | nil => intro i v t0 hi _; simp at hi
  | cons hd tl ih =>
    intro i v t0 hi hvn
    cases i with
    | zero =>
      simp only [List.get?_cons_zero, Option.some_inj] at hi
      subst hi
      rw [List.set_cons_zero, List.map_cons, List.map_cons, hvn]
    | succ k =>
      simp only [List.get?_cons_succ] at hi
      rw [List.set_cons_succ, List.map_cons, List.map_cons, ih k v t0 hi hvn]

theorem overlayInto_filter_perm (ex : ExerciseData) (s : WorkoutSet)
    (hnotin : s.set_number ∉
      ((ex.sets.filter (fun t => t.logged)).map (fun t => t.set_number))) :
    ((overlayIntoExercise ex s).sets.filter (fun t => t.logged)).Perm
      (loggedSetData s :: ex.sets.filter (fun t => t.logged)) := by
  cases hidx : ex.sets.findIdx? (fun t => t.set_number = s.set_number) with
  | some i =>
    have hover : overlayIntoExercise ex s =
        { ex with sets := ex.sets.set i (loggedSetData s) } := by
      unfold overlayIntoExercise
      rw [hidx]
    rw [hover]
    obtain ⟨⟨t0, hget, hp⟩, -⟩ := (findIdx?_some_iff_first
      (fun t => t.set_number = s.set_number) ex.sets i).1 hidx
    have ht0n : t0.set_number = s.set_number := by simpa using hp
    have ht0 : t0.logged = false := by
      by_contra hc
      have hc2 : t0.logged = true := by simpa using hc
      refine hnotin ?_
      rw [← ht0n]
      exact List.mem_map_of_mem _
        (List.mem_filter.2 ⟨List.get?_mem hget, by simp [hc2]⟩)
    exact filter_set_perm (loggedSetData s) rfl ex.sets i t0 hget ht0
  | none =>
    have hover : overlayIntoExercise ex s =
        { ex with sets := ex.sets ++ [loggedSetData s] } := by
      unfold overlayIntoExercise
      rw [hidx]
    rw [hover]
    show ((ex.sets ++ [loggedSetData s]).filter (fun t => t.logged)).Perm _
    rw [List.filter_append]
    have hone : List.filter (fun t => t.logged) [loggedSetData s] =
        [loggedSetData s] := by
      simp [loggedSetData]
    rw [hone]
    exact List.perm_append_singleton _ _

theorem overlayInto_setNums (ex : ExerciseData) (s : WorkoutSet)
    (hnd : (ex.sets.map (fun t => t.set_number)).Nodup) :
    ((overlayIntoExercise ex s).sets.map (fun t => t.set_number)).Nodup := by
  cases hidx : ex.sets.findIdx? (fun t => t.set_number = s.set_number) with
  | some i =>
    have hover : overlayIntoExercise ex s =
        { ex with sets := ex.sets.set i (loggedSetData s) } := by
      unfold overlayIntoExercise
      rw [hidx]
    rw [hover]
    obtain ⟨⟨t0, hget, hp⟩, -⟩ := (findIdx?_some_iff_first
      (fun t => t.set_number = s.set_number) ex.sets i).1 hidx
    have ht0n : t0.set_number = s.set_number := by simpa using hp
    show ((ex.sets.set i (loggedSetData s)).map (fun t => t.set_number)).Nodup
    rw [map_set_same_number ex.sets i (loggedSetData s) t0 hget
      (by show s.set_number = _; omega)]
    exact hnd
  | none =>
    have hover : overlayIntoExercise ex s =
        { ex with sets := ex.sets ++ [loggedSetData s] } := by
      unfold overlayIntoExercise
      rw [hidx]
    rw [hover]
    show ((ex.sets ++ [loggedSetData s]).map (fun t => t.set_number)).Nodup
    rw [List.map_append]
    refine List.Nodup.append hnd (by simp) ?_
    intro a ha hb
    simp only [List.map_cons, List.map_nil, List.mem_singleton] at hb
    rcases List.mem_map.1 ha with ⟨t, ht, hta⟩
    have := (findIdx?_none_iff (fun t => t.set_number = s.set_number)
      ex.sets).1 hidx t ht
    simp only [decide_eq_false_iff_not] at this
    refine this ?_
    rw [hta, hb]
    rfl

theorem overlaySet_map_id_of_absent {t : List ExerciseData} {s : WorkoutSet}
    (h : ∀ z ∈ t, z.exercise_id ≠ s.exercise_id) :
    t.map (fun ex => if ex.exercise_id = s.exercise_id
      then overlayIntoExercise ex s else ex) = t := by
  calc t.map (fun ex => if ex.exercise_id = s.exercise_id
        then overlayIntoExercise ex s else ex)
      = t.map id := List.map_congr_left (fun z hz => if_neg (h z hz))
    _ = t := List.map_id t

theorem overlaySet_cons_match {y : ExerciseData} {t : List ExerciseData}
    {s : WorkoutSet} (hy : y.exercise_id = s.exercise_id)
    (hnone : ∀ z ∈ t, z.exercise_id ≠ s.exercise_id) :
    overlaySet (y :: t) s = overlayIntoExercise y s :: t := by
  unfold overlaySet
  rw [if_pos (by simp [hy] :
    ((y :: t).any fun ex => ex.exercise_id = s.exercise_id) = true),
    List.map_cons, if_pos hy, overlaySet_map_id_of_absent hnone]

theorem loggedPairs_cons (x : ExerciseData) (t : List ExerciseData) :
    loggedPairs (x :: t) =
      (x.sets.filter (fun s2 => s2.logged)).map
        (fun s2 => (x.exercise_id, s2.set_number)) ++ loggedPairs t := rfl

theorem overlaySet_step (s : WorkoutSet) :
    ∀ m : List ExerciseData,
      (m.map (fun e => e.exercise_id)).Nodup →
      (s.exercise_id, s.set_number) ∉ loggedPairs m →
      (loggedPairs (overlaySet m s)).Perm
        ((s.exercise_id, s.set_number) :: loggedPairs m) ∧
      ((overlaySet m s).map exVol).sum =
        (m.map exVol).sum + s.weight * s.reps ∧
      ((overlaySet m s).map (fun e => e.exercise_id)).Nodup := by
  intro m
  induction m with
  | nil =>
    intro _ _
    refine ⟨?_, ?_, ?_⟩
    · have h1 : loggedPairs (overlaySet [] s) =
          [(s.exercise_id, s.set_number)] := by
        simp [overlaySet, loggedPairs, overlayIntoExercise, freshExercise,
          loggedSetData]
      have h2 : loggedPairs ([] : List ExerciseData) = [] := rfl
      rw [h1, h2]
    · simp [overlaySet, exVol, overlayIntoExercise, freshExercise,
        loggedSetData]
    · simp [overlaySet]
  | cons y t ih =>
    intro hnd hp
    simp only [List.map_cons, List.nodup_cons] at hnd
    by_cases hy : y.exercise_id = s.exercise_id
    · have hnone : ∀ z ∈ t, z.exercise_id ≠ s.exercise_id := by
        intro z hz hc
        exact hnd.1 (hy ▸ hc ▸
          List.mem_map_of_mem (fun e => e.exercise_id) hz)
      rw [overlaySet_cons_match hy hnone]
      have hid : (overlayIntoExercise y s).exercise_id = y.exercise_id :=
        overlayIntoExercise_exercise_id y s
      have hnotin : s.set_number ∉
          ((y.sets.filter (fun t2 => t2.logged)).map
            (fun t2 => t2.set_number)) := by
        intro hc
        rcases List.mem_map.1 hc with ⟨u, hu, hun⟩
        refine hp ?_
        rw [loggedPairs_cons]
        refine List.mem_append_left _ ?_
        refine List.mem_map.2 ⟨u, hu, ?_⟩
        simp [hy, hun]
      have hperm := overlayInto_filter_perm y s hnotin
      refine ⟨?_, ?_, ?_⟩
      · rw [loggedPairs_cons, loggedPairs_cons]
        have hA : (((overlayIntoExercise y s).sets.filter
              (fun t2 => t2.logged)).map
              (fun t2 => ((overlayIntoExercise y s).exercise_id,
                t2.set_number))).Perm
            ((s.exercise_id, s.set_number) ::
              (y.sets.filter (fun t2 => t2.logged)).map
                (fun t2 => (y.exercise_id, t2.set_number))) := by
          rw [hid]
          have hm := hperm.map (fun t2 => (y.exercise_id, t2.set_number))
          simpa [loggedSetData, hy] using hm
        exact hA.append_right _
      · rw [List.map_cons, List.map_cons, List.sum_cons, List.sum_cons]
        have hv : exVol (overlayIntoExercise y s) =
            s.weight * s.reps + exVol y := by
          unfold exVol
          have hm := (hperm.map (fun t2 => t2.weight * t2.reps)).sum_eq
          simpa [loggedSetData] using hm
        rw [hv]
        ring
      · simp only [List.map_cons, hid, List.nodup_cons]
        exact ⟨hnd.1, hnd.2⟩
    · rw [overlaySet_cons_skip hy]
      have hpt : (s.exercise_id, s.set_number) ∉ loggedPairs t := by
        intro hc
        refine hp ?_
        rw [loggedPairs_cons]
        exact List.mem_append_right _ hc
      obtain ⟨ih1, ih2, ih3⟩ := ih hnd.2 hpt
      refine ⟨?_, ?_, ?_⟩
      · rw [loggedPairs_cons, loggedPairs_cons]
        exact (List.Perm.append_left _ ih1).trans List.perm_middle
      · rw [List.map_cons, List.map_cons, List.sum_cons, List.sum_cons, ih2]
        ring
      · simp only [List.map_cons, List.nodup_cons]
        refine ⟨?_, ih3⟩
        intro hc
        rcases List.mem_map.1 hc with ⟨z, hz, hzy⟩
        rcases overlaySet_mem hz with ⟨w, hw, hzw | hzw⟩ | hzf
        · refine hnd.1 ?_
          rw [← hzy, hzw, overlayIntoExercise_exercise_id]
          exact List.mem_map_of_mem _ hw
        · refine hnd.1 ?_
          rw [← hzy, hzw]
          exact List.mem_map_of_mem _ hw
        · refine hy ?_
          rw [← hzy, hzf, overlayIntoExercise_exercise_id]
          rfl

theorem loggedPairs_eq_nil {m : List ExerciseData}
    (h : ∀ x ∈ m, ∀ s ∈ x.sets, s.logged = false) : loggedPairs m = [] := by
  induction m with
  | nil => rfl
  | cons x t ih =>
    rw [loggedPairs_cons]
    have h1 : x.sets.filter (fun s2 => s2.logged) = [] := by
      rw [List.filter_eq_nil]
      intro a ha
      simp [h x (List.mem_cons_self _ _) a ha]
    rw [h1]
    simp only [List.map_nil, List.nil_append]
    exact ih (fun y hy => h y (List.mem_cons_of_mem _ hy))

theorem seedPhase_vol_zero (rn : Option String) (rs : List Routine) :
    ((seedPhase rn rs).map exVol).sum = 0 := by
  refine List.sum_eq_zero ?_
  intro v hv
  rcases List.mem_map.1 hv with ⟨x, hx, hxv⟩
  have h1 : x.sets.filter (fun s2 => s2.logged) = [] := by
    rw [List.filter_eq_nil]
    intro a ha
    simp [seedPhase_unlogged hx a ha]
  rw [← hxv]
  unfold exVol
  rw [h1]
  rfl

theorem overlay_fold (ws : List WorkoutSet) :
    ∀ m : List ExerciseData,
      (m.map (fun e => e.exercise_id)).Nodup →
      (∀ s ∈ ws, (s.exercise_id, s.set_number) ∉ loggedPairs m) →
      ((ws.map (fun s => (s.exercise_id, s.set_number))).Nodup) →
      ((ws.foldl overlaySet m).map exVol).sum =
        (m.map exVol).sum + (ws.map (fun s => s.weight * s.reps)).sum ∧
      (loggedPairs (ws.foldl overlaySet m)).Perm
        ((ws.map (fun s => (s.exercise_id, s.set_number))) ++ loggedPairs m) ∧
      ((ws.foldl overlaySet m).map (fun e => e.exercise_id)).Nodup := by
  induction ws with
  | nil =>
    intro m h1 _ _
    refine ⟨by simp, by simp, h1⟩
  | cons s rest ih =>
    intro m hnd hfresh hwnd
    obtain ⟨st1, st2, st3⟩ :=
      overlaySet_step s m hnd (hfresh s (List.mem_cons_self _ _))
    simp only [List.map_cons, List.nodup_cons] at hwnd
    have hfresh2 : ∀ s2 ∈ rest,
        (s2.exercise_id, s2.set_number) ∉ loggedPairs (overlaySet m s) := by
      intro s2 hs2 hc
      rcases List.mem_cons.1 (st1.mem_iff.1 hc) with h | h
      · exact hwnd.1 (h ▸ List.mem_map_of_mem
          (fun s3 => (s3.exercise_id, s3.set_number)) hs2)
      · exact hfresh s2 (List.mem_cons_of_mem _ hs2) h
    obtain ⟨f1, f2, f3⟩ := ih (overlaySet m s) st3 hfresh2 hwnd.2
    refine ⟨?_, ?_, f3⟩
    · rw [List.foldl_cons, f1, st2, List.map_cons, List.sum_cons]
      ring
    · rw [List.foldl_cons]
      refine f2.trans ?_
      refine (List.Perm.append_left _ st1).trans ?_
      exact List.perm_middle

theorem exVol_mergeSort (x : ExerciseData) :
    exVol { x with
      sets := x.sets.mergeSort (fun a b => a.set_number ≤ b.set_number) } =
      exVol x := by
  unfold exVol
  exact (((List.mergeSort_perm x.sets
    (fun a b => a.set_number ≤ b.set_number)).filter
      (fun s2 => s2.logged)).map (fun s2 => s2.weight * s2.reps)).sum_eq

theorem sortAndExpand_exVol_map (m : List ExerciseData) :
    (sortAndExpand m).map exVol = m.map exVol := by
  induction m with
  | nil => rfl
  | cons x t ih =>
    by_cases hall : ((x.sets.mergeSort
        (fun a b => a.set_number ≤ b.set_number)).all fun s => s.logged) = true
    · have hme : sortAndExpand (x :: t) =
          { x with sets := x.sets.mergeSort (fun a b => a.set_number ≤ b.set_number) } ::
            sortAndExpand t := by
        simp [sortAndExpand, hall]
      rw [hme, List.map_cons, List.map_cons, ih, exVol_mergeSort]
    · have hme : sortAndExpand (x :: t) =
          { x with sets := x.sets.mergeSort (fun a b => a.set_number ≤ b.set_number), expanded := true } ::
            t := by
        simp [sortAndExpand, hall]
      rw [hme, List.map_cons, List.map_cons]
      have hv : exVol { x with
          sets := x.sets.mergeSort (fun a b => a.set_number ≤ b.set_number),
          expanded := true } = exVol x := exVol_mergeSort x
      rw [hv]

/-- C4: the displayed total volume equals Σ weight×reps over the session's
persisted sets exactly, both on the workout-detail page and in the live
reconciliation view built from them (assuming, per the upsert contract, no
two persisted rows share an (exercise, set_number) key). -/
theorem claim_C4_total_volume (rn : Option String) (rs : List Routine)
    (ws : List WorkoutSet)
    (hnd : (ws.map (fun s => (s.exercise_id, s.set_number))).Nodup) :
    totalVolume (buildView rn rs ws) =
      (ws.map (fun s => s.weight * s.reps)).sum ∧
    detailTotalVolume ws = (ws.map (fun s => s.weight * s.reps)).sum := by
  refine ⟨?_, detailTotalVolume_eq_sum ws⟩
  rw [totalVolume_eq_sum]
  unfold buildView
  rw [sortAndExpand_exVol_map]
  have hnil : loggedPairs (seedPhase rn rs) = [] :=
    loggedPairs_eq_nil (fun x hx => seedPhase_unlogged hx)
  obtain ⟨f1, -, -⟩ := overlay_fold ws (seedPhase rn rs)
    (seedPhase_keys_nodup rn rs)
    (fun s _ => by rw [hnil]; exact List.not_mem_nil _) hnd
  rw [f1, seedPhase_vol_zero, zero_add]

/-- C4 witness: for persisted sets (100,10) and (80,12), both the live view's
total volume and the detail page's total volume are 100·10+80·12 = 1960. -/
theorem claim_C4_witness :
    totalVolume (buildView (some "Push") [rt] [wsB1, wsB2]) = 1960 ∧
    detailTotalVolume [wsB1, wsB2] = 1960 ∧
    (100 * 10 + 80 * 12 : ℚ) = 1960 :=
  ⟨by
    rw [(claim_C4_total_volume (some "Push") [rt] [wsB1, wsB2] (by decide)).1]
    norm_num [wsB1, wsB2],
   by
    rw [(claim_C4_total_volume (some "Push") [rt] [wsB1, wsB2] (by decide)).2]
    norm_num [wsB1, wsB2],
   by norm_num⟩

/-- The implicit well-formedness invariant of the reconciliation view:
exercise ids are pairwise distinct, and within each exercise the set numbers
are pairwise distinct. -/
def viewInvariant (view : List ExerciseData) : Prop :=
  (view.map (fun e => e.exercise_id)).Nodup ∧
  ∀ ex ∈ view, (ex.sets.map (fun s => s.set_number)).Nodup

theorem overlaySet_keys_nodup {m : List ExerciseData} {s : WorkoutSet}
    (h : (m.map (fun e => e.exercise_id)).Nodup) :
    ((overlaySet m s).map (fun e => e.exercise_id)).Nodup := by
  unfold overlaySet
  split
  · have heq : ((m.map (fun ex => if ex.exercise_id = s.exercise_id
        then overlayIntoExercise ex s else ex)).map
          (fun e => e.exercise_id)) = m.map (fun e => e.exercise_id) := by
      rw [List.map_map]
      refine List.map_congr_left ?_
      intro x _
      by_cases hx : x.exercise_id = s.exercise_id
      · simp [Function.comp, hx, overlayIntoExercise_exercise_id]
      · simp [Function.comp, hx]
    rw [heq]
    exact h
  · rename_i hany
    rw [List.map_append]
    refine List.Nodup.append h (by simp) ?_
    intro a ha hb
    simp only [List.map_cons, List.map_nil, List.mem_singleton] at hb
    have hb2 : a = s.exercise_id := by
      rw [hb, overlayIntoExercise_exercise_id]
      rfl
    rcases List.mem_map.1 ha with ⟨x, hx, hxa⟩
    refine hany ?_
    rw [List.any_eq_true]
    exact ⟨x, hx, by simp [hxa, hb2]⟩

theorem overlay_fold_keys_nodup (ws : List WorkoutSet) :
    ∀ m : List ExerciseData, (m.map (fun e => e.exercise_id)).Nodup →
      ((ws.foldl overlaySet m).map (fun e => e.exercise_id)).Nodup := by
  induction ws with
  | nil => intro m h; exact h
  | cons s rest ih =>
    intro m h
    exact ih (overlaySet m s) (overlaySet_keys_nodup h)

theorem overlay_fold_setNums (ws : List WorkoutSet) :
    ∀ m : List ExerciseData,
      (∀ x ∈ m, (x.sets.map (fun t => t.set_number)).Nodup) →
      ∀ x ∈ ws.foldl overlaySet m,
        (x.sets.map (fun t => t.set_number)).Nodup := by
  induction ws with
  | nil => intro m h; exact h
  | cons s rest ih =>
    intro m h
    refine ih (overlaySet m s) ?_
    intro x hx
    rcases overlaySet_mem hx with ⟨y, hy, hxy | hxy⟩ | hxf
    · rw [hxy]
      exact overlayInto_setNums y s (h y hy)
    · rw [hxy]
      exact h y hy
    · rw [hxf]
      show (([loggedSetData s]).map (fun t => t.set_number)).Nodup
      simp

theorem sortAndExpand_keys (m : List ExerciseData) :
    (sortAndExpand m).map (fun e => e.exercise_id) =
      m.map (fun e => e.exercise_id) := by
  induction m with
  | nil => rfl
  | cons x t ih =>
    by_cases hall : ((x.sets.mergeSort
        (fun a b => a.set_number ≤ b.set_number)).all fun s => s.logged) = true
    · have hme : sortAndExpand (x :: t) =
          { x with sets := x.sets.mergeSort (fun a b => a.set_number ≤ b.set_number) } ::
            sortAndExpand t := by
        simp [sortAndExpand, hall]
      rw [hme, List.map_cons, List.map_cons, ih]
    · have hme : sortAndExpand (x :: t) =
          { x with sets := x.sets.mergeSort (fun a b => a.set_number ≤ b.set_number), expanded := true } ::
            t := by
        simp [sortAndExpand, hall]
      rw [hme, List.map_cons, List.map_cons]

theorem sortAndExpand_mem_sets {m : List ExerciseData} {x : ExerciseData}
    (hx : x ∈ sortAndExpand m) : ∃ y ∈ m, x.sets.Perm y.sets := by
  induction m with
  | nil => simp [sortAndExpand] at hx
  | cons z t ih =>
    by_cases hall : ((z.sets.mergeSort
        (fun a b => a.set_number ≤ b.set_number)).all fun s => s.logged) = true
    · have hme : sortAndExpand (z :: t) =
          { z with sets := z.sets.mergeSort (fun a b => a.set_number ≤ b.set_number) } ::
            sortAndExpand t := by
        simp [sortAndExpand, hall]
      rw [hme] at hx
      rcases List.mem_cons.1 hx with h | h
      · refine ⟨z, List.mem_cons_self _ _, ?_⟩
        rw [h]
        exact List.mergeSort_perm z.sets _
      · rcases ih h with ⟨y, hy, hxy⟩
        exact ⟨y, List.mem_cons_of_mem _ hy, hxy⟩
    · have hme : sortAndExpand (z :: t) =
          { z with sets := z.sets.mergeSort (fun a b => a.set_number ≤ b.set_number), expanded := true } ::
            t := by
        simp [sortAndExpand, hall]
      rw [hme] at hx
      rcases List.mem_cons.1 hx with h | h
      · refine ⟨z, List.mem_cons_self _ _, ?_⟩
        rw [h]
        exact List.mergeSort_perm z.sets _
      · exact ⟨x, List.mem_cons_of_mem _ h, List.Perm.refl _⟩

theorem buildView_invariant (rn : Option String) (rs : List Routine)
    (ws : List WorkoutSet) : viewInvariant (buildView rn rs ws) := by
  unfold buildView viewInvariant
  constructor
  · rw [sortAndExpand_keys]
    exact overlay_fold_keys_nodup ws _ (seedPhase_keys_nodup rn rs)
  · intro ex hex
    rcases sortAndExpand_mem_sets hex with ⟨z, hz, hyz⟩
    have hz2 := overlay_fold_setNums ws (seedPhase rn rs)
      (fun x hx => seedPhase_setNums_nodup hx) z hz
    exact ((hyz.map (fun t => t.set_number)).nodup_iff).2 hz2

theorem updateExercise_keys (v : List ExerciseData) (eid : String)
    (f : ExerciseData → ExerciseData)
    (hf : ∀ x, (f x).exercise_id = x.exercise_id) :
    (updateExercise v eid f).map (fun e => e.exercise_id) =
      v.map (fun e => e.exercise_id) := by
  unfold updateExercise
  rw [List.map_map]
  refine List.map_congr_left ?_
  intro x _
  by_cases hx : x.exercise_id = eid
  · simp [Function.comp, hx, hf]
  · simp [Function.comp, hx]

theorem updateExercise_mem {v : List ExerciseData} {eid : String}
    {f : ExerciseData → ExerciseData} {x : ExerciseData}
    (hx : x ∈ updateExercise v eid f) : x ∈ v ∨ ∃ y ∈ v, x = f y := by
  unfold updateExercise at hx
  rcases List.mem_map.1 hx with ⟨y, hy, hxy⟩
  by_cases h : y.exercise_id = eid
  · simp only [h, if_pos] at hxy
    exact Or.inr ⟨y, hy, hxy.symm⟩
  · simp only [h, if_neg, not_false_iff] at hxy
    exact Or.inl (hxy ▸ hy)

theorem updateExercise_keys_nodup {v : List ExerciseData} {eid : String}
    {f : ExerciseData → ExerciseData}
    (hf : ∀ x, (f x).exercise_id = x.exercise_id)
    (h : (v.map (fun e => e.exercise_id)).Nodup) :
    ((updateExercise v eid f).map (fun e => e.exercise_id)).Nodup := by
  rw [updateExercise_keys v eid f hf]
  exact h

theorem setNums_map_preserved {sets : List SetData} (g : SetData → SetData)
    (hg : ∀ t, (g t).set_number = t.set_number)
    (hy : (sets.map (fun t => t.set_number)).Nodup) :
    ((sets.map g).map (fun t => t.set_number)).Nodup := by
  rw [List.map_map]
  have heq : sets.map ((fun t => t.set_number) ∘ g) =
      sets.map (fun t => t.set_number) :=
    List.map_congr_left (fun t _ => hg t)
  rw [heq]
  exact hy

theorem setNums_append_fresh {sets : List SetData}
    (hy : (sets.map (fun t => t.set_number)).Nodup) (w r : ℚ) :
    ((sets ++
        [({ id := none,
            set_number := (sets.foldl (fun m s => max m s.set_number) 0) + 1,
            weight := w, reps := r, rpe := none,
            logged := false } : SetData)]).map
      (fun t => t.set_number)).Nodup := by
  rw [List.map_append]
  refine List.Nodup.append hy (by simp) ?_
  intro a ha hb
  simp only [List.map_cons, List.map_nil, List.mem_singleton] at hb
  rcases List.mem_map.1 ha with ⟨t, ht, hta⟩
  have hbound := (foldl_max_bounds sets 0).2 t ht
  omega

theorem addExercise_invariant (view : List ExerciseData)
    (res : List Exercise) (e : Exercise) (hInv : viewInvariant view)
    (he : e ∈ filterSearchResults res view) :
    viewInvariant (addExercise view e) := by
  obtain ⟨h1, h2⟩ := hInv
  have hnot : ∀ x ∈ view, x.exercise_id ≠ e.id := by
    have hf := (List.mem_filter.1 he).2
    intro x hx hc
    have hany : view.any (fun e2 => e2.exercise_id = e.id) = true := by
      rw [List.any_eq_true]
      exact ⟨x, hx, by simp [hc]⟩
    simp [hany] at hf
  constructor
  · unfold addExercise
    rw [List.map_append]
    refine List.Nodup.append h1 (by simp) ?_
    intro a ha hb
    simp only [List.map_cons, List.map_nil, List.mem_singleton] at hb
    rcases List.mem_map.1 ha with ⟨x, hx, hxa⟩
    exact hnot x hx (by rw [hxa, hb])
  · intro ex hex
    unfold addExercise at hex
    rcases List.mem_append.1 hex with h | h
    · exact h2 ex h
    · rw [List.mem_singleton.1 h]
      simp

theorem addSetToExercise_invariant (view : List ExerciseData) (eid : String)
    (hInv : viewInvariant view) :
    viewInvariant (addSetToExercise view eid) := by
  obtain ⟨h1, h2⟩ := hInv
  constructor
  · exact updateExercise_keys_nodup (fun x => rfl) h1
  · intro ex hex
    rcases updateExercise_mem hex with h | ⟨y, hy, hxy⟩
    · exact h2 ex h
    · rw [hxy]
      exact setNums_append_fresh (h2 y hy) _ _
  
theorem updateSet_invariant (view : List ExerciseData) (eid : String)
    (setNumber : Int) (fld : SetField) (v : ℚ) (hInv : viewInvariant view) :
    viewInvariant (updateSet view eid setNumber fld v) := by
  obtain ⟨h1, h2⟩ := hInv
  constructor
  · exact updateExercise_keys_nodup (fun x => rfl) h1
  · intro ex hex
    rcases updateExercise_mem hex with h | ⟨y, hy, hxy⟩
    · exact h2 ex h
    · rw [hxy]
      refine setNums_map_preserved _ ?_ (h2 y hy)
      intro t
      by_cases ht : t.set_number = setNumber
      · rw [if_pos ht]
        cases fld <;> rfl
      · rw [if_neg ht]

theorem handleLogSet_invariant (view : List ExerciseData) (eid : String)
    (sd : SetData) (hInv : viewInvariant view) :
    viewInvariant ((handleLogSet view eid sd).2) := by
  obtain ⟨h1, h2⟩ := hInv
  unfold handleLogSet
  split
  · exact ⟨h1, h2⟩
  · constructor
    · exact updateExercise_keys_nodup (fun x => rfl) h1
    · intro ex hex
      rcases updateExercise_mem hex with h | ⟨y, hy, hxy⟩
      · exact h2 ex h
      · rw [hxy]
        refine setNums_map_preserved _ ?_ (h2 y hy)
        intro t
        by_cases ht : t.set_number = sd.set_number
        · rw [if_pos ht]
        · rw [if_neg ht]

/-- C10: every operation on the reconciliation view — the initial build,
adding an ad-hoc exercise via the filtered search, adding a set, editing a
set's fields, logging a set — preserves distinctness of exercise ids and,
within each exercise, distinctness of set numbers. -/
theorem claim_C10_view_invariant :
    (∀ (rn : Option String) (rs : List Routine) (ws : List WorkoutSet),
      viewInvariant (buildView rn rs ws)) ∧
    (∀ (view : List ExerciseData) (res : List Exercise) (e : Exercise),
      viewInvariant view → e ∈ filterSearchResults res view →
      viewInvariant (addExercise view e)) ∧
    (∀ (view : List ExerciseData) (eid : String),
      viewInvariant view → viewInvariant (addSetToExercise view eid)) ∧
    (∀ (view : List ExerciseData) (eid : String) (setNumber : Int)
      (fld : SetField) (v : ℚ),
      viewInvariant view →
        viewInvariant (updateSet view eid setNumber fld v)) ∧
    (∀ (view : List ExerciseData) (eid : String) (sd : SetData),
      viewInvariant view → viewInvariant ((handleLogSet view eid sd).2)) :=
  ⟨buildView_invariant, addExercise_invariant, addSetToExercise_invariant,
   updateSet_invariant, handleLogSet_invariant⟩

def exC : Exercise := ⟨"exC", "Squat", "Legs", "barbell"⟩

/-- C10 witness: the demo view satisfies the invariant and keeps satisfying
it after adding exercise C via the filtered search, adding a set to B,
editing a set weight on B, and logging a set of A. -/
theorem claim_C10_witness :
    viewInvariant demoView ∧
    viewInvariant (addExercise demoView exC) ∧
    viewInvariant (addSetToExercise demoView "exB") ∧
    viewInvariant (updateSet demoView "exB" 1 SetField.weight 105) ∧
    viewInvariant ((handleLogSet demoView "exA"
      ⟨none, 1, 10, 5, none, false⟩).2) :=
  ⟨claim_C10_view_invariant.1 (some "Push") [rt] [wsB1, wsB2],
   claim_C10_view_invariant.2.1 demoView [exC] exC
     (claim_C10_view_invariant.1 (some "Push") [rt] [wsB1, wsB2])
     (by rw [demoView_eq]; decide),
   claim_C10_view_invariant.2.2.1 demoView "exB"
     (claim_C10_view_invariant.1 (some "Push") [rt] [wsB1, wsB2]),
   claim_C10_view_invariant.2.2.2.1 demoView "exB" 1 SetField.weight 105
     (claim_C10_view_invariant.1 (some "Push") [rt] [wsB1, wsB2]),
   claim_C10_view_invariant.2.2.2.2 demoView "exA"
     ⟨none, 1, 10, 5, none, false⟩
     (claim_C10_view_invariant.1 (some "Push") [rt] [wsB1, wsB2])⟩
